import Mathlib

/-!
Verification of the Local Memory Vault (LMV) storage engine.

This file is a shallow embedding, in Lean 4, of the core of the LMV
service (`src/canonical.ts`, `src/crypto.ts`, `src/errors.ts`,
`src/schema.ts`, `src/storage.ts`, `src/server.ts`).  Persistent state is
modelled as an explicit `FS` value that each operation threads through;
JavaScript numbers that the code only ever uses as non-negative integers
(versions, cursors) are modelled as `Nat`; JSON documents are modelled by
the inductive type `Json`; fallible operations return `Except HttpErr`.

The cryptographic primitives of `node:crypto` (scrypt, HKDF, AES-256-GCM)
are external to the repository; journal lines are therefore modelled at
the decode level (`EncLine`): a line either decodes to a plaintext ledger
entry together with the AAD recorded in its envelope, or it fails to
decode (JSON parse / envelope parse / decrypt / AEAD verify).  SHA-256
itself is implemented executably below, because the hash chain of the
journal is computed by the repository's own code path
(`canonicalJson` / `sha256Hex` / `computeEntryHash`).
-/

set_option maxRecDepth 40000

/-! ## SHA-256 (`sha256Hex` in `src/canonical.ts`)

Executable SHA-256 (FIPS 180-4) over byte lists; all word arithmetic is
`Nat` reduced mod `2^32`. -/

def w32 : Nat := 4294967296

def rotr32 (x n : Nat) : Nat :=
  ((x >>> n) ||| (x <<< (32 - n))) % w32

def not32 (x : Nat) : Nat := x ^^^ (w32 - 1)

def sha256K : List Nat :=
  [1116352408, 1899447441, 3049323471, 3921009573, 961987163,
   1508970993, 2453635748, 2870763221, 3624381080, 310598401,
   607225278, 1426881987, 1925078388, 2162078206, 2614888103,
   3248222580, 3835390401, 4022224774, 264347078, 604807628,
   770255983, 1249150122, 1555081692, 1996064986, 2554220882,
   2821834349, 2952996808, 3210313671, 3336571891, 3584528711,
   113926993, 338241895, 666307205, 773529912, 1294757372,
   1396182291, 1695183700, 1986661051, 2177026350, 2456956037,
   2730485921, 2820302411, 3259730800, 3345764771, 3516065817,
   3600352804, 4094571909, 275423344, 430227734, 506948616,
   659060556, 883997877, 958139571, 1322822218, 1537002063,
   1747873779, 1955562222, 2024104815, 2227730452, 2361852424,
   2428436474, 2756734187, 3204031479, 3329325298]

def sha256H0 : List Nat :=
  [1779033703, 3144134277, 1013904242, 2773480762, 1359893119, 2600822924, 528734635, 1541459225]

/-- FIPS 180-4 padding: `0x80`, zeros to 56 mod 64, then the 8-byte
big-endian bit length. -/
def sha256Pad (msg : List Nat) : List Nat :=
  let len := msg.length
  let zeros := (119 - len % 64) % 64
  let bitLen := len * 8
  msg ++ [0x80] ++ List.replicate zeros 0 ++
    [(bitLen >>> 56) % 256, (bitLen >>> 48) % 256, (bitLen >>> 40) % 256, (bitLen >>> 32) % 256,
     (bitLen >>> 24) % 256, (bitLen >>> 16) % 256, (bitLen >>> 8) % 256, bitLen % 256]

/-- Big-endian 32-bit words from bytes. -/
def sha256Words : List Nat → List Nat
  | b0 :: b1 :: b2 :: b3 :: rest =>
      (((b0 * 256 + b1) * 256 + b2) * 256 + b3) :: sha256Words rest
  | _ => []

def ssig0 (x : Nat) : Nat := (x >>> 3) ^^^ (rotr32 x 7 ^^^ rotr32 x 18)
def ssig1 (x : Nat) : Nat := (x >>> 10) ^^^ (rotr32 x 17 ^^^ rotr32 x 19)
def bsig0 (x : Nat) : Nat := (rotr32 x 13 ^^^ rotr32 x 22) ^^^ rotr32 x 2
def bsig1 (x : Nat) : Nat := (rotr32 x 11 ^^^ rotr32 x 25) ^^^ rotr32 x 6

/-- One message-schedule extension step. -/
def schedStep (w : List Nat) : List Nat :=
  let n := w.length
  w ++ [(ssig1 (w.getD (n - 2) 0) + w.getD (n - 7) 0 + ssig0 (w.getD (n - 15) 0) +
         w.getD (n - 16) 0) % w32]

def sched : Nat → List Nat → List Nat
  | 0, w => w
  | k + 1, w => sched k (schedStep w)

/-- One compression round on the 8-word working state. -/
def roundStep (st : List Nat) (kt wt : Nat) : List Nat :=
  match st with
  | [a, b, c, d, e, f, g, h] =>
    let ch := (not32 e &&& g) ^^^ (e &&& f)
    let maj := (b &&& c) ^^^ ((a &&& b) ^^^ (a &&& c))
    let t1 := (h + bsig1 e + ch + kt + wt) % w32
    let t2 := (bsig0 a + maj) % w32
    [(t1 + t2) % w32, a, b, c, (d + t1) % w32, e, f, g]
  | other => other

def roundsGo : List Nat → List Nat → List Nat → List Nat
  | st, kt :: ks, wt :: ws => roundsGo (roundStep st kt wt) ks ws
  | st, _, _ => st

def addStates (x y : List Nat) : List Nat :=
  match x, y with
  | a :: xs, b :: ys => (a + b) % w32 :: addStates xs ys
  | _, _ => []

def sha256Compress (st : List Nat) (block : List Nat) : List Nat :=
  addStates st (roundsGo st sha256K (sched 48 block))

/-- Iterate the compression over 16-word chunks; the fuel counts chunks. -/
def sha256Loop : Nat → List Nat → List Nat → List Nat
  | 0, st, _ => st
  | fuel + 1, st, ws => sha256Loop fuel (sha256Compress st (ws.take 16)) (ws.drop 16)

def hexDigit (n : Nat) : Char :=
  if n < 10 then Char.ofNat (48 + n) else Char.ofNat (87 + n)

def hex8 (x : Nat) : List Char :=
  [hexDigit ((x >>> 28) % 16), hexDigit ((x >>> 24) % 16), hexDigit ((x >>> 20) % 16),
   hexDigit ((x >>> 16) % 16), hexDigit ((x >>> 12) % 16), hexDigit ((x >>> 8) % 16),
   hexDigit ((x >>> 4) % 16), hexDigit (x % 16)]

def sha256BytesHex (msg : List Nat) : String :=
  let ws := sha256Words (sha256Pad msg)
  let final := sha256Loop (ws.length / 16) sha256H0 ws
  String.mk (final.foldr (fun x acc => hex8 x ++ acc) [])

/-- UTF-8 encoding of one unicode codepoint. -/
def utf8EncodeChar (c : Nat) : List Nat :=
  if c < 0x80 then [c]
  else if c < 0x800 then [0xC0 ||| (c >>> 6), 0x80 ||| (c &&& 0x3F)]
  else if c < 0x10000 then
    [0xE0 ||| (c >>> 12), 0x80 ||| ((c >>> 6) &&& 0x3F), 0x80 ||| (c &&& 0x3F)]
  else
    [0xF0 ||| (c >>> 18), 0x80 ||| ((c >>> 12) &&& 0x3F), 0x80 ||| ((c >>> 6) &&& 0x3F),
     0x80 ||| (c &&& 0x3F)]

def utf8Bytes (s : String) : List Nat :=
  s.data.foldr (fun c acc => utf8EncodeChar c.toNat ++ acc) []

/-- `sha256Hex` of `src/canonical.ts`: lowercase hex of the SHA-256 of the
UTF-8 bytes of the input string. -/
def sha256Hex (s : String) : String :=
  sha256BytesHex (utf8Bytes s)

/-! ## JSON documents

`Json` models a JavaScript JSON value.  Numbers are modelled as `Int`:
the repository only ever serializes integral numbers (versions, cursors
and client-supplied patch values; we restrict patch values the same
way). Object fields keep insertion order, exactly as JavaScript object
keys do. -/

inductive Json where
  | obj (fields : List (String × Json))
  | arr (elems : List Json)
  | str (s : String)
  | num (n : Int)
  | bool (b : Bool)
  | null

def Json.isObj : Json → Bool
  | .obj _ => true
  | _ => false

/-- One character of a JS `JSON.stringify` string literal. -/
def escapeJsonChar (c : Char) : List Char :=
  if c = '"' then ['\\', '"']
  else if c = '\\' then ['\\', '\\']
  else if c.toNat = 8 then ['\\', 'b']
  else if c.toNat = 9 then ['\\', 't']
  else if c.toNat = 10 then ['\\', 'n']
  else if c.toNat = 12 then ['\\', 'f']
  else if c.toNat = 13 then ['\\', 'r']
  else if c.toNat < 32 then ['\\', 'u', '0', '0', hexDigit (c.toNat / 16), hexDigit (c.toNat % 16)]
  else [c]

def jsonQuote (s : String) : String :=
  "\"" ++ String.mk (s.data.foldr (fun c acc => escapeJsonChar c ++ acc) []) ++ "\""

mutual
/-- JavaScript `JSON.stringify`: compact separators, object fields in
their stored (insertion) order. -/
def Json.stringify : Json → String
  | .null => "null"
  | .bool true => "true"
  | .bool false => "false"
  | .num n => toString n
  | .str s => jsonQuote s
  | .arr xs => "[" ++ Json.stringifyList xs ++ "]"
  | .obj kvs => "\x7b" ++ Json.stringifyFields kvs ++ "\x7d"

def Json.stringifyList : List Json → String
  | [] => ""
  | [x] => x.stringify
  | x :: y :: xs => x.stringify ++ "," ++ Json.stringifyList (y :: xs)

def Json.stringifyFields : List (String × Json) → String
  | [] => ""
  | [(k, v)] => jsonQuote k ++ ":" ++ v.stringify
  | (k, v) :: y :: xs => jsonQuote k ++ ":" ++ v.stringify ++ "," ++ Json.stringifyFields (y :: xs)
end

/-- Lexicographic codepoint order on character lists. -/
def charListLt : List Char → List Char → Bool
  | [], [] => false
  | [], _ :: _ => true
  | _ :: _, [] => false
  | c :: cs, d :: ds =>
    if c.toNat < d.toNat then true
    else if d.toNat < c.toNat then false
    else charListLt cs ds

/-- String order used by the canonicalizer key sort (JS
`Array.prototype.sort` compares UTF-16 sequences; all keys the
repository ever serializes are ASCII, where that order and codepoint
order agree). -/
def strLt (a b : String) : Bool := charListLt a.data b.data

/-- Insert a field into a key-sorted field list. -/
def insertFieldSorted (k : String) (v : Json) : List (String × Json) → List (String × Json)
  | [] => [(k, v)]
  | (k2, v2) :: rest =>
    if strLt k k2 then (k, v) :: (k2, v2) :: rest else (k2, v2) :: insertFieldSorted k v rest

def sortFieldList : List (String × Json) → List (String × Json)
  | [] => []
  | (k, v) :: rest => insertFieldSorted k v (sortFieldList rest)

mutual
/-- `sortValue` of `src/canonical.ts`: recursively sort object keys;
arrays keep their order. -/
def sortValue : Json → Json
  | .null => .null
  | .bool b => .bool b
  | .num n => .num n
  | .str s => .str s
  | .arr xs => .arr (sortValueList xs)
  | .obj kvs => .obj (sortFieldList (sortValueFields kvs))

def sortValueList : List Json → List Json
  | [] => []
  | x :: xs => sortValue x :: sortValueList xs

def sortValueFields : List (String × Json) → List (String × Json)
  | [] => []
  | (k, v) :: xs => (k, sortValue v) :: sortValueFields xs
end

/-- `canonicalJson` of `src/canonical.ts`: `JSON.stringify(sortValue(v))`. -/
def canonicalJson (v : Json) : String :=
  (sortValue v).stringify

/-- Structural JSON equality up to object key order (models the deep
equality used by the external `fast-json-patch` library for `test`
operations; key order is irrelevant there, as it is for canonical
forms). -/
def jsonDeepEq (a b : Json) : Bool :=
  canonicalJson a == canonicalJson b

/-! ## Generic string helpers -/

def isJsWhitespace (c : Char) : Bool :=
  c = ' ' || c = '\t' || c = '\n' || c = '\r' || c.toNat = 12 || c.toNat = 11

/-- JavaScript `String.prototype.trim`. -/
def strTrim (s : String) : String :=
  String.mk (((s.data.dropWhile isJsWhitespace).reverse.dropWhile isJsWhitespace).reverse)

def digitsToNat (ds : List Char) : Nat :=
  ds.foldl (fun acc c => acc * 10 + (c.toNat - 48)) 0

def allDigits (ds : List Char) : Bool :=
  ds.all Char.isDigit

/-- Tail of an ISO datetime after the seconds: optional `.digits`, then `Z`,
then end of string (helper for `isIsoDatetime`). -/
def fracThenZ : List Char → Bool
  | ['Z'] => true
  | c :: rest => c.isDigit && fracThenZ rest
  | [] => false

/-- The `z.string().datetime()` check of zod used by the repository's
schemas: `^\d\x7b4\x7d-\d\x7b2\x7d-\d\x7b2\x7dT\d\x7b2\x7d:\d\x7b2\x7d:\d\x7b2\x7d(\.\d+)?Z$`. -/
def isIsoDatetime (s : String) : Bool :=
  match s.data with
  | y1 :: y2 :: y3 :: y4 :: '-' :: m1 :: m2 :: '-' :: d1 :: d2 :: 'T' ::
      h1 :: h2 :: ':' :: i1 :: i2 :: ':' :: s1 :: s2 :: rest =>
    allDigits [y1, y2, y3, y4, m1, m2, d1, d2, h1, h2, i1, i2, s1, s2] &&
    (match rest with
     | ['Z'] => true
     | '.' :: c :: more => c.isDigit && fracThenZ more
     | _ => false)
  | _ => false

def b64Char (n : Nat) : Char :=
  if n < 26 then Char.ofNat (65 + n)
  else if n < 52 then Char.ofNat (97 + (n - 26))
  else if n < 62 then Char.ofNat (48 + (n - 52))
  else if n = 62 then '+' else '/'

def base64Go : List Nat → List Char
  | [] => []
  | [a] => [b64Char (a >>> 2), b64Char ((a &&& 3) <<< 4), '=', '=']
  | [a, b] => [b64Char (a >>> 2), b64Char (((a &&& 3) <<< 4) ||| (b >>> 4)),
               b64Char ((b &&& 15) <<< 2), '=']
  | a :: b :: c :: rest =>
      b64Char (a >>> 2) :: b64Char (((a &&& 3) <<< 4) ||| (b >>> 4)) ::
      b64Char (((b &&& 15) <<< 2) ||| (c >>> 6)) :: b64Char (c &&& 63) :: base64Go rest

/-- Standard base64 of a byte list (Node `Buffer.toString("base64")`). -/
def base64Encode (bs : List Nat) : String :=
  String.mk (base64Go bs)

/-! ## Data model (`src/types.ts`, `src/schema.ts`) -/

/-- `UID` of `src/types.ts`. -/
def UID : String := "lmv-v1"

/-- `SCHEMA_VERSION` of `src/types.ts`. -/
def SCHEMA_VERSION : Nat := 1

inductive OpKind where
  | add
  | remove
  | replace
  | move
  | copy
  | test
deriving DecidableEq

/-- One RFC 6902 operation as validated by `jsonPatchOperationSchema`.
`fromPath` models the `from` field (`from` is a Lean keyword). -/
structure PatchOp where
  op : OpKind
  path : String
  fromPath : Option String
  value : Option Json

structure MemoryState where
  version : Nat
  blocks : Json
  updated_at : String

structure VaultSnapshotPlain where
  uid : String
  schema_version : Nat
  memory : MemoryState
  snapshot_cursor : Nat
  updated_at : String

structure LedgerEntryPlain where
  cursor : Nat
  ts : String
  actor : String
  base_version : Nat
  new_version : Nat
  reason : String
  auth : Option String
  patch : List PatchOp
  prev_hash : String
  entry_hash : String

structure CurrentState where
  memory : MemoryState
  snapshot_cursor : Nat
  ledger_cursor : Nat

/-! ### zod schema checks as boolean predicates

The zod schemas validate data that is already structurally typed here, so
each `safeParse` becomes the boolean residue of its checks.  Notes kept
faithful to zod v3 semantics: in `blocksSchema` the four reserved keys are
declared `z.unknown()`, which accepts an absent key, so the only
constraint `blocksSchema` actually enforces is that blocks is an object
(`.passthrough()` keeps unknown keys and `z.unknown()` never fails);
`z.number().int().nonnegative()` is vacuous for `Nat`. -/

def authValOk : Option String → Bool
  | none => true
  | some a => a == "none" || a == "token"

/-- `jsonPatchOperationSchema`: `path` min length 1, `from` (when present)
min length 1, `move`/`copy` require `from`, `add`/`replace`/`test`
require `value`. -/
def patchOpOk (op : PatchOp) : Bool :=
  (op.path.length != 0) &&
  (match op.fromPath with
   | none => true
   | some f => f.length != 0) &&
  (match op.op with
   | .move | .copy => op.fromPath.isSome
   | _ => true) &&
  (match op.op with
   | .add | .replace | .test => op.value.isSome
   | _ => true)

/-- `jsonPatchSchema = z.array(jsonPatchOperationSchema)`. -/
def patchOpsOk (patch : List PatchOp) : Bool := patch.all patchOpOk

/-- `blocksSchema` (see the note above: object-ness is all it checks). -/
def blocksOk (b : Json) : Bool := b.isObj

/-- `memorySchema`: non-negative integer version (vacuous on `Nat`),
blocks via `blocksSchema`, `updated_at` a datetime string. -/
def memoryOk (m : MemoryState) : Bool :=
  blocksOk m.blocks && isIsoDatetime m.updated_at

/-- `vaultSnapshotSchema`. -/
def vaultSnapshotOk (s : VaultSnapshotPlain) : Bool :=
  (s.uid.length != 0) && (s.schema_version != 0) && memoryOk s.memory &&
  isIsoDatetime s.updated_at

/-- `ledgerEntrySchema`. -/
def ledgerEntryOk (e : LedgerEntryPlain) : Bool :=
  (e.cursor != 0) && isIsoDatetime e.ts && (e.actor.length != 0) &&
  (e.reason.length != 0) && authValOk e.auth && patchOpsOk e.patch

/-! ## Canonical JSON encodings of records (hash inputs, AAD) -/

def opKindStr : OpKind → String
  | .add => "add"
  | .remove => "remove"
  | .replace => "replace"
  | .move => "move"
  | .copy => "copy"
  | .test => "test"

/-- The JSON object of one patch operation as zod emits it (shape key
order `op, path, from, value`; optional keys omitted when absent). -/
def patchOpJson (op : PatchOp) : Json :=
  .obj ([("op", .str (opKindStr op.op)), ("path", .str op.path)] ++
    (match op.fromPath with
     | some f => [("from", .str f)]
     | none => []) ++
    (match op.value with
     | some v => [("value", v)]
     | none => []))

/-- The `hashInput` object built by `readLedgerEntries` and (spread-wise)
by `patchMemory` in `src/storage.ts`: the entry with `entry_hash` absent,
`auth` included only when present.  Key insertion order is as in the
source; `canonicalJson` sorts keys anyway. -/
def entryHashInputJson (e : LedgerEntryPlain) : Json :=
  .obj ([("cursor", .num e.cursor), ("ts", .str e.ts), ("actor", .str e.actor),
         ("base_version", .num e.base_version), ("new_version", .num e.new_version),
         ("reason", .str e.reason), ("patch", .arr (e.patch.map patchOpJson)),
         ("prev_hash", .str e.prev_hash)] ++
    (match e.auth with
     | some a => [("auth", .str a)]
     | none => []))

/-- `computeEntryHash` of `src/storage.ts`:
`sha256Hex(canonicalJson(entry-without-entry_hash))`. -/
def computeEntryHash (e : LedgerEntryPlain) : String :=
  sha256Hex (canonicalJson (entryHashInputJson e))

/-- An AAD context (`AADContext` of `src/types.ts`). -/
inductive AADContext where
  | vault (uid : String) (schema_version : Nat) (vault_version : Nat)
  | ledgerEntry (uid : String) (schema_version : Nat) (entry_cursor : Nat)

/-- The JS object literal each AAD context denotes, with the key insertion
order used at the construction sites `vaultAAD` / `ledgerAAD` in
`src/storage.ts`. -/
def aadJson : AADContext → Json
  | .vault uid sv vv =>
      .obj [("record_type", .str "vault"), ("uid", .str uid),
            ("schema_version", .num sv), ("vault_version", .num vv)]
  | .ledgerEntry uid sv ec =>
      .obj [("record_type", .str "ledger_entry"), ("uid", .str uid),
            ("schema_version", .num sv), ("entry_cursor", .num ec)]

/-- `aadToBuffer` of `src/crypto.ts`: `Buffer.from(JSON.stringify(context), "utf8")`.
Note this is plain `JSON.stringify` on the context object, not `canonicalJson`. -/
def aadToBuffer (ctx : AADContext) : List Nat :=
  utf8Bytes (Json.stringify (aadJson ctx))

/-- `vaultAAD` of `src/storage.ts`. -/
def vaultAAD (s : VaultSnapshotPlain) : AADContext :=
  .vault s.uid s.schema_version s.memory.version

/-- `ledgerAAD` of `src/storage.ts`. -/
def ledgerAAD (e : LedgerEntryPlain) : AADContext :=
  .ledgerEntry UID SCHEMA_VERSION e.cursor

/-- The envelope record (`EnvelopeV1` of `src/types.ts`).  The fixed KDF
parameters are omitted; the AES-256-GCM ciphertext and tag are produced
by `node:crypto`, external to the repository, so `ciphertext_b64` is
modelled as the base64 of the serialized plaintext (an invertible
stand-in) and `tag_b64` is left abstract as the empty string.  No claim
concerns those two fields; `aad_b64` and `info` are modelled exactly. -/
structure EnvelopeV1 where
  salt_b64 : String
  info : String
  iv_b64 : String
  tag_b64 : String
  aad_b64 : String
  ciphertext_b64 : String

/-- `encryptEnvelope` of `src/crypto.ts`, at the envelope-content level:
the salt and IV are the random bytes drawn by the caller, and
`aad_b64 = base64(aadToBuffer(aadContext))`. -/
def encryptEnvelope (payload : Json) (info : String) (aadContext : AADContext)
    (salt iv : List Nat) : EnvelopeV1 :=
  { salt_b64 := base64Encode salt
    info := info
    iv_b64 := base64Encode iv
    tag_b64 := ""
    aad_b64 := base64Encode (aadToBuffer aadContext)
    ciphertext_b64 := base64Encode (utf8Bytes (Json.stringify payload)) }

/-! ## `parseIfMatch`, `etagForVersion` (`src/storage.ts`) -/

/-- `parseIfMatch`: match `^"v(\d+)"$` on the trimmed header and parse the
digits (the digit string is parsed exactly; JS `parseInt` loses precision
beyond 2^53, which no claim depends on). -/
def parseIfMatch (s : String) : Option Nat :=
  match (strTrim s).data with
  | '"' :: 'v' :: rest =>
    match rest.reverse with
    | '"' :: revDigits =>
      let ds := revDigits.reverse
      if !ds.isEmpty && allDigits ds then some (digitsToNat ds) else none
    | _ => none
  | _ => none

/-- `etagForVersion`: the string `"v<version>"`, double quotes included. -/
def etagForVersion (version : Nat) : String :=
  "\"v" ++ toString version ++ "\""

/-! ## Error taxonomy (`src/errors.ts`)

Each `HttpError` subclass carries a message; `ConflictError` additionally
carries the current ETag, which it places both in `details.current_etag`
and in the `ETag` response header. -/

inductive HttpErr where
  | schemaValidation (msg : String)
  | conflict (msg : String) (currentETag : String)
  | patchApply (msg : String)
  | storageCorruption (msg : String)
  | unauthorized (msg : String)
  | internalErr (msg : String)
deriving DecidableEq

/-- Status codes assigned by the constructors in `src/errors.ts`
(`internalErr` models a non-`HttpError` throw, which the server's error
handler maps to 500). -/
def HttpErr.statusCode : HttpErr → Nat
  | .schemaValidation _ => 400
  | .conflict _ _ => 409
  | .patchApply _ => 422
  | .storageCorruption _ => 500
  | .unauthorized _ => 401
  | .internalErr _ => 500

/-- Response headers attached to an error (`ConflictError` sets
`ETag: currentETag`; the others set none). -/
def HttpErr.headers : HttpErr → List (String × String)
  | .conflict _ etag => [("ETag", etag)]
  | _ => []

/-- The `details` object merged into the error response body
(`ConflictError` sets `current_etag`; the diagnostic details of the other
classes are not modelled). -/
def HttpErr.details : HttpErr → Json
  | .conflict _ etag => .obj [("current_etag", .str etag)]
  | _ => .null

/-! ## JSON Patch application

Model of the external `fast-json-patch` `applyPatch(doc, ops, true, false)`
call: RFC 6902 semantics on `Json`, returning `none` on any application
error (the storage code maps every such throw to `PatchApplyError`, and
during replay to a generic 500, without inspecting it). -/

def unescapeTokenChars : List Char → List Char
  | '~' :: '1' :: rest => '/' :: unescapeTokenChars rest
  | '~' :: '0' :: rest => '~' :: unescapeTokenChars rest
  | c :: rest => c :: unescapeTokenChars rest
  | [] => []

def splitSlash : List Char → List (List Char)
  | [] => [[]]
  | '/' :: rest => [] :: splitSlash rest
  | c :: rest =>
    match splitSlash rest with
    | t :: ts => (c :: t) :: ts
    | [] => [[c]]

/-- JSON Pointer parse: `""` is the root; otherwise the path must start
with `/`. -/
def parsePointer (p : String) : Option (List String) :=
  match p.data with
  | [] => some []
  | '/' :: rest => some ((splitSlash rest).map (fun t => String.mk (unescapeTokenChars t)))
  | _ => none

def lookupField (fields : List (String × Json)) (k : String) : Option Json :=
  match fields with
  | [] => none
  | (k2, v) :: rest => if k2 == k then some v else lookupField rest k

def hasField (fields : List (String × Json)) (k : String) : Bool :=
  (lookupField fields k).isSome

def setField (fields : List (String × Json)) (k : String) (v : Json) : List (String × Json) :=
  match fields with
  | [] => [(k, v)]
  | (k2, v2) :: rest => if k2 == k then (k2, v) :: rest else (k2, v2) :: setField rest k v

def removeField (fields : List (String × Json)) (k : String) : List (String × Json) :=
  match fields with
  | [] => []
  | (k2, v2) :: rest => if k2 == k then rest else (k2, v2) :: removeField rest k

/-- Array index token: digits only. -/
def parseArrayIndex (t : String) : Option Nat :=
  if !t.data.isEmpty && allDigits t.data then some (digitsToNat t.data) else none

def listSet : List Json → Nat → Json → List Json
  | [], _, _ => []
  | _ :: rest, 0, v => v :: rest
  | x :: rest, n + 1, v => x :: listSet rest n v

def listInsertAt : List Json → Nat → Json → List Json
  | xs, 0, v => v :: xs
  | [], _ + 1, v => [v]
  | x :: rest, n + 1, v => x :: listInsertAt rest n v

def listRemoveAt : List Json → Nat → List Json
  | [], _ => []
  | _ :: rest, 0 => rest
  | x :: rest, n + 1 => x :: listRemoveAt rest n

mutual
def jsonGet : Json → List String → Option Json
  | doc, [] => some doc
  | .obj kvs, k :: rest =>
    match lookupField kvs k with
    | some v => jsonGet v rest
    | none => none
  | .arr xs, k :: rest =>
    match parseArrayIndex k with
    | some i => if h : i < xs.length then jsonGet (xs.get ⟨i, h⟩) rest else none
    | none => none
  | _, _ :: _ => none
end

def jsonAdd : Json → List String → Json → Option Json
  | _, [], v => some v
  | .obj kvs, [k], v => some (.obj (setField kvs k v))
  | .arr xs, [k], v =>
    if k = "-" then some (.arr (xs ++ [v]))
    else
      match parseArrayIndex k with
      | some i => if i ≤ xs.length then some (.arr (listInsertAt xs i v)) else none
      | none => none
  | .obj kvs, k :: k2 :: rest, v =>
    match lookupField kvs k with
    | some child =>
      match jsonAdd child (k2 :: rest) v with
      | some child2 => some (.obj (setField kvs k child2))
      | none => none
    | none => none
  | .arr xs, k :: k2 :: rest, v =>
    match parseArrayIndex k with
    | some i =>
      if h : i < xs.length then
        match jsonAdd (xs.get ⟨i, h⟩) (k2 :: rest) v with
        | some child2 => some (.arr (listSet xs i child2))
        | none => none
      else none
    | none => none
  | _, _ :: _, _ => none

def jsonRemove : Json → List String → Option Json
  | _, [] => none
  | .obj kvs, [k] => if hasField kvs k then some (.obj (removeField kvs k)) else none
  | .arr xs, [k] =>
    match parseArrayIndex k with
    | some i => if i < xs.length then some (.arr (listRemoveAt xs i)) else none
    | none => none
  | .obj kvs, k :: k2 :: rest =>
    match lookupField kvs k with
    | some child =>
      match jsonRemove child (k2 :: rest) with
      | some child2 => some (.obj (setField kvs k child2))
      | none => none
    | none => none
  | .arr xs, k :: k2 :: rest =>
    match parseArrayIndex k with
    | some i =>
      if h : i < xs.length then
        match jsonRemove (xs.get ⟨i, h⟩) (k2 :: rest) with
        | some child2 => some (.arr (listSet xs i child2))
        | none => none
      else none
    | none => none
  | _, _ :: _ => none

/-- Overwrite an existing location: a key overwrite in objects, an index
overwrite in arrays. -/
def jsonSetAt : Json → List String → Json → Option Json
  | _, [], v => some v
  | .obj kvs, [k], v => some (.obj (setField kvs k v))
  | .arr xs, [k], v =>
    match parseArrayIndex k with
    | some i => if i < xs.length then some (.arr (listSet xs i v)) else none
    | none => none
  | .obj kvs, k :: k2 :: rest, v =>
    match lookupField kvs k with
    | some child =>
      match jsonSetAt child (k2 :: rest) v with
      | some child2 => some (.obj (setField kvs k child2))
      | none => none
    | none => none
  | .arr xs, k :: k2 :: rest, v =>
    match parseArrayIndex k with
    | some i =>
      if h : i < xs.length then
        match jsonSetAt (xs.get ⟨i, h⟩) (k2 :: rest) v with
        | some child2 => some (.arr (listSet xs i child2))
        | none => none
      else none
    | none => none
  | _, _ :: _, _ => none

/-- `replace` requires the target to resolve, then overwrites it. -/
def jsonReplace (doc : Json) (p : List String) (v : Json) : Option Json :=
  match jsonGet doc p with
  | some _ => jsonSetAt doc p v
  | none => none

def applyOp (doc : Json) (op : PatchOp) : Option Json :=
  match op.op with
  | .add =>
    match op.value, parsePointer op.path with
    | some v, some p => jsonAdd doc p v
    | _, _ => none
  | .remove =>
    match parsePointer op.path with
    | some p => jsonRemove doc p
    | none => none
  | .replace =>
    match op.value, parsePointer op.path with
    | some v, some p => jsonReplace doc p v
    | _, _ => none
  | .move =>
    match op.fromPath, parsePointer op.path with
    | some f, some p =>
      match parsePointer f with
      | some pf =>
        match jsonGet doc pf with
        | some v =>
          match jsonRemove doc pf with
          | some removed => jsonAdd removed p v
          | none => none
        | none => none
      | none => none
    | _, _ => none
  | .copy =>
    match op.fromPath, parsePointer op.path with
    | some f, some p =>
      match parsePointer f with
      | some pf =>
        match jsonGet doc pf with
        | some v => jsonAdd doc p v
        | none => none
      | none => none
    | _, _ => none
  | .test =>
    match op.value, parsePointer op.path with
    | some v, some p =>
      match jsonGet doc p with
      | some actual => if jsonDeepEq actual v then some doc else none
      | none => none
    | _, _ => none

/-- Sequential application of a patch; any failing operation fails the
whole patch (`applyPatch` with `mutateDocument = false`). -/
def applyPatchOps (doc : Json) : List PatchOp → Option Json
  | [] => some doc
  | op :: rest =>
    match applyOp doc op with
    | some doc2 => applyPatchOps doc2 rest
    | none => none

/-! ## Persisted state (`src/storage.ts`)

`FS` is the initialized on-disk state: the decrypted snapshot held by
`vault.enc` together with the AAD its envelope records, and the list of
journal lines of `ledger.jsonl.enc` (blank lines are filtered out by
`readLedgerEntries` before any indexing, so `ledger` holds the non-blank
lines).  `ensureDataFiles` is the identity on an initialized state and is
therefore not modelled separately; `initialFS` is the state it creates in
an empty data directory.  `meta.json` plays no role in any claim. -/

/-- One non-blank line of `ledger.jsonl.enc`, at the decode level:
`ok entry aad` is a line whose envelope parses, decrypts and
AEAD-verifies, yielding the plaintext `entry` and the envelope's recorded
AAD object `aad`; `bad` is a line that fails one of those steps
(JSON parse, envelope schema, `hkdf.info` mismatch, decrypt/AEAD error). -/
inductive EncLine where
  | ok (entry : LedgerEntryPlain) (aad : Json)
  | bad

/-- The line `appendLedgerEntry` writes for an entry: its envelope records
`ledgerAAD(entry)` as AAD. -/
def goodLine (e : LedgerEntryPlain) : EncLine :=
  .ok e (aadJson (ledgerAAD e))

structure FS where
  vault : VaultSnapshotPlain
  vaultAad : Json
  ledger : List EncLine

/-- `readVault`: decrypt (modelled away), validate `vaultSnapshotSchema`,
then compare `JSON.stringify(vaultAAD(snapshot))` with the stringified
recorded AAD. -/
def readVault (fs : FS) : Except HttpErr VaultSnapshotPlain :=
  if vaultSnapshotOk fs.vault then
    if Json.stringify (aadJson (vaultAAD fs.vault)) = Json.stringify fs.vaultAad then
      .ok fs.vault
    else .error (.storageCorruption "Vault AAD context mismatch")
  else .error (.storageCorruption "Vault payload schema mismatch")

/-- `writeVault`: validate `vaultSnapshotSchema`, then overwrite
`vault.enc` with a fresh envelope whose AAD is `vaultAAD(snapshot)`. -/
def writeVault (fs : FS) (s : VaultSnapshotPlain) : Except HttpErr FS :=
  if vaultSnapshotOk s then
    .ok { fs with vault := s, vaultAad := aadJson (vaultAAD s) }
  else .error (.schemaValidation "Invalid vault snapshot schema")

/-- `appendLedgerEntry`: encrypt the entry with AAD `ledgerAAD(entry)` and
append the line. -/
def appendLedgerEntry (fs : FS) (e : LedgerEntryPlain) : FS :=
  { fs with ledger := fs.ledger ++ [goodLine e] }

/-- Decoding of one line inside the `try` of the read loop of
`readLedgerEntries`: parse/decrypt (`EncLine.bad` on failure), validate
`ledgerEntrySchema`, then compare the expected AAD with the recorded one
via `JSON.stringify`.  Every failure is a `StorageCorruptionError` by the
time the `catch` re-throws it. -/
def decodeLine : EncLine → Except HttpErr LedgerEntryPlain
  | .bad => .error (.storageCorruption "Failed to parse/decrypt ledger entry")
  | .ok e aad =>
    if ledgerEntryOk e then
      if Json.stringify (aadJson (ledgerAAD e)) = Json.stringify aad then .ok e
      else .error (.storageCorruption "Ledger AAD context mismatch")
    else .error (.storageCorruption "Ledger entry schema mismatch")

/-- The first loop of `readLedgerEntries`: decode lines in order; a decode
failure on the **last** line breaks out of the loop (torn-append
discard), a failure on any earlier line propagates. -/
def decodeLines : List EncLine → Except HttpErr (List LedgerEntryPlain)
  | [] => .ok []
  | [l] =>
    match decodeLine l with
    | .ok e => .ok [e]
    | .error _ => .ok []
  | l :: l2 :: rest =>
    match decodeLine l with
    | .ok e =>
      match decodeLines (l2 :: rest) with
      | .ok es => .ok (e :: es)
      | .error err => .error err
    | .error err => .error err

/-- The second loop of `readLedgerEntries`: cursors must be dense from
`i + 1`, each `prev_hash` must equal the running hash (`ph`), and each
`entry_hash` must reproduce under `computeEntryHash`. -/
def checkChain (ph : String) (i : Nat) : List LedgerEntryPlain → Except HttpErr Unit
  | [] => .ok ()
  | e :: es =>
    if e.cursor ≠ i + 1 then .error (.storageCorruption "Ledger cursor is not contiguous")
    else if e.prev_hash ≠ ph then
      .error (.storageCorruption "Ledger hash chain broken at prev_hash")
    else if computeEntryHash e ≠ e.entry_hash then
      .error (.storageCorruption "Ledger hash chain broken at entry_hash")
    else checkChain e.entry_hash (i + 1) es

/-- `readLedgerEntries` of `src/storage.ts`. -/
def readLedgerEntries (lines : List EncLine) : Except HttpErr (List LedgerEntryPlain) :=
  match decodeLines lines with
  | .error err => .error err
  | .ok es =>
    match checkChain "" 0 es with
    | .error err => .error err
    | .ok _ => .ok es

/-- One replay step of `replayLedger`: check `base_version`, apply the
patch to (a deep copy of) the blocks, advance version and timestamp, then
validate `memorySchema`.  A patch-application throw during replay is not
caught by the storage layer, so it surfaces as a non-`HttpError`
(`internalErr`). -/
def applyEntry (m : MemoryState) (e : LedgerEntryPlain) : Except HttpErr MemoryState :=
  if e.base_version ≠ m.version then
    .error (.storageCorruption "Ledger base_version mismatch")
  else
    match applyPatchOps m.blocks e.patch with
    | none => .error (.internalErr "patch application threw during replay")
    | some newBlocks =>
      if memoryOk { version := e.new_version, blocks := newBlocks, updated_at := e.ts } then
        .ok { version := e.new_version, blocks := newBlocks, updated_at := e.ts }
      else .error (.storageCorruption "Memory invalid after ledger replay")

def replayEntries (m : MemoryState) (sc : Nat) : List LedgerEntryPlain → Except HttpErr MemoryState
  | [] => .ok m
  | e :: es =>
    if e.cursor ≤ sc then replayEntries m sc es
    else
      match applyEntry m e with
      | .ok m2 => replayEntries m2 sc es
      | .error err => .error err

/-- `replayLedger` of `src/storage.ts`. -/
def replayLedger (snapshot : VaultSnapshotPlain) (entries : List LedgerEntryPlain) :
    Except HttpErr CurrentState :=
  if entries.length < snapshot.snapshot_cursor then
    .error (.storageCorruption "snapshot_cursor is ahead of ledger")
  else
    match replayEntries snapshot.memory snapshot.snapshot_cursor entries with
    | .ok m => .ok { memory := m, snapshot_cursor := snapshot.snapshot_cursor,
                     ledger_cursor := entries.length }
    | .error err => .error err

/-- `getCurrentState` of `src/storage.ts`. -/
def getCurrentState (fs : FS) : Except HttpErr CurrentState :=
  match readVault fs with
  | .error err => .error err
  | .ok snapshot =>
    match readLedgerEntries fs.ledger with
    | .error err => .error err
    | .ok entries => replayLedger snapshot entries

/-- `assertPatchAllowed` of `src/storage.ts` rejects exactly the patches
for which this is true. -/
def patchTouchesReserved (patch : List PatchOp) : Bool :=
  patch.any fun op => op.path == "/version" || op.path == "/updated_at"

/-- `emptyMemory` of `src/storage.ts`. -/
def emptyMemory (now : String) : MemoryState :=
  { version := 0
    blocks := .obj [("identity", .obj []), ("methodology", .obj []),
                    ("projects", .obj []), ("rules", .obj [])]
    updated_at := now }

/-- The state `ensureDataFiles` creates in an empty data directory: an
initial empty-memory snapshot at cursor 0 and an empty journal. -/
def initialFS (now : String) : FS :=
  let snapshot : VaultSnapshotPlain :=
    { uid := UID, schema_version := SCHEMA_VERSION, memory := emptyMemory now,
      snapshot_cursor := 0, updated_at := now }
  { vault := snapshot, vaultAad := aadJson (vaultAAD snapshot), ledger := [] }

structure PatchInput where
  ifMatchHeader : String
  patch : List PatchOp
  actor : String
  reason : String
  auth : String

structure PatchResult where
  state : CurrentState
  applied_entry_cursor : Nat

/-- The entry built in step 7 of `patchMemory`: `cursor = |entries| + 1`,
`ts = now`, versions from the current memory, `prev_hash` from the last
entry, and `entry_hash` computed over the entry with `entry_hash`
absent. -/
def buildEntry (current : CurrentState) (entries : List LedgerEntryPlain)
    (input : PatchInput) (now : String) : LedgerEntryPlain :=
  let pre : LedgerEntryPlain :=
    { cursor := entries.length + 1
      ts := now
      actor := input.actor
      base_version := current.memory.version
      new_version := current.memory.version + 1
      reason := input.reason
      auth := some input.auth
      patch := input.patch
      prev_hash :=
        match entries.getLast? with
        | some last => last.entry_hash
        | none => ""
      entry_hash := "" }
  { pre with entry_hash := computeEntryHash pre }

/-- `patchMemory` of `src/storage.ts`.  The pair threads the persisted
state: every failure path returns the state unchanged, mirroring the fact
that the source throws before its single write (`appendLedgerEntry`). -/
def patchMemory (fs : FS) (input : PatchInput) (now : String) :
    FS × Except HttpErr PatchResult :=
  if !patchOpsOk input.patch then
    (fs, .error (.schemaValidation "Invalid JSON Patch schema"))
  else if patchTouchesReserved input.patch then
    (fs, .error (.patchApply "Patch cannot modify /version or /updated_at"))
  else
    match parseIfMatch input.ifMatchHeader with
    | none => (fs, .error (.schemaValidation "Invalid If-Match. Expected format: \x22v\x7bn\x7d\x22"))
    | some baseVersion =>
      match readVault fs with
      | .error err => (fs, .error err)
      | .ok snapshot =>
        match readLedgerEntries fs.ledger with
        | .error err => (fs, .error err)
        | .ok entries =>
          match replayLedger snapshot entries with
          | .error err => (fs, .error err)
          | .ok current =>
            if baseVersion ≠ current.memory.version then
              (fs, .error (.conflict "Version conflict" (etagForVersion current.memory.version)))
            else
              match applyPatchOps current.memory.blocks input.patch with
              | none => (fs, .error (.patchApply "Patch application failed"))
              | some patchedBlocks =>
                if !blocksOk patchedBlocks then
                  (fs, .error (.patchApply "Patch result violates blocks schema"))
                else
                  let entry := buildEntry current entries input now
                  (appendLedgerEntry fs entry,
                   .ok { state := { memory := { version := entry.new_version,
                                                blocks := patchedBlocks,
                                                updated_at := entry.ts }
                                    snapshot_cursor := snapshot.snapshot_cursor
                                    ledger_cursor := entry.cursor }
                         applied_entry_cursor := entry.cursor })

structure SnapshotResult where
  snapshot_cursor : Nat
  ledger_cursor : Nat
  memory_version : Nat

/-- `snapshot` of `src/storage.ts` (named `snapshotOp` here since
`snapshot` is used as a variable name throughout). -/
def snapshotOp (fs : FS) (now : String) : FS × Except HttpErr SnapshotResult :=
  match readVault fs with
  | .error err => (fs, .error err)
  | .ok snapshot =>
    match readLedgerEntries fs.ledger with
    | .error err => (fs, .error err)
    | .ok entries =>
      match replayLedger snapshot entries with
      | .error err => (fs, .error err)
      | .ok current =>
        if current.ledger_cursor ≤ snapshot.snapshot_cursor then
          (fs, .ok { snapshot_cursor := snapshot.snapshot_cursor
                     ledger_cursor := current.ledger_cursor
                     memory_version := current.memory.version })
        else
          let nextSnapshot : VaultSnapshotPlain :=
            { uid := UID, schema_version := SCHEMA_VERSION, memory := current.memory,
              snapshot_cursor := current.ledger_cursor, updated_at := now }
          match writeVault fs nextSnapshot with
          | .error err => (fs, .error err)
          | .ok fs2 =>
            (fs2, .ok { snapshot_cursor := nextSnapshot.snapshot_cursor
                        ledger_cursor := current.ledger_cursor
                        memory_version := current.memory.version })

/-! ## File-operation traces

`FsOp` records the sequence of filesystem operations a write-path routine
performs, translated syscall-by-syscall from `src/storage.ts` (paths are
relative to the data directory). -/

inductive FsOp where
  | writeFile (path : String) (contents : String)
  | openAppend (path : String)
  | write (data : String)
  | fsync
  | close
  | rename (srcPath dstPath : String)
deriving DecidableEq

def FsOp.isRename : FsOp → Bool
  | .rename _ _ => true
  | _ => false

def FsOp.isFsync : FsOp → Bool
  | .fsync => true
  | _ => false

/-- The filesystem operations of `writeVault` (lines 223-235 of
`src/storage.ts`) on its success path, given the serialized envelope: a
single direct `fs.writeFile` of `vault.enc`. -/
def writeVaultFsOps (envelopeJson : String) : List FsOp :=
  [.writeFile "vault.enc" envelopeJson]

/-- The filesystem operations of `appendLedgerEntry` (lines 355-364 of
`src/storage.ts`), given the serialized envelope line: open in append
mode, write the LF-terminated line, fsync, close. -/
def appendLedgerFsOps (line : String) : List FsOp :=
  [.openAppend "ledger.jsonl.enc", .write (line ++ "\n"), .fsync, .close]

/-! ## Request surface (`src/server.ts`) -/

structure Request where
  authorization : Option String
  contentType : Option String
  ifMatch : Option String
  actorHeader : Option String
  reasonHeader : Option String
  body : Json

def toLowerAscii (s : String) : String :=
  String.mk (s.data.map fun c => if 'A' ≤ c && c ≤ 'Z' then Char.ofNat (c.toNat + 32) else c)

def takeUntilSemicolon (cs : List Char) : List Char :=
  match cs with
  | [] => []
  | ';' :: _ => []
  | c :: rest => c :: takeUntilSemicolon rest

/-- `parseContentType` of `src/server.ts`: text before the first `;`,
trimmed, lowercased; empty string for a missing header. -/
def parseContentType : Option String → String
  | none => ""
  | some v => toLowerAscii (strTrim (String.mk (takeUntilSemicolon v.data)))

/-- The regex `^Bearer\s+(.+)$` applied to the trimmed header: `Bearer`,
at least one whitespace, then the (greedy, non-empty) token. -/
def bearerToken (header : String) : Option String :=
  match (strTrim header).data with
  | 'B' :: 'e' :: 'a' :: 'r' :: 'e' :: 'r' :: rest =>
    match rest with
    | c :: _ =>
      if isJsWhitespace c then
        let payload := rest.dropWhile isJsWhitespace
        if payload.isEmpty then none else some (String.mk payload)
      else none
    | [] => none
  | _ => none

/-- `requireWriteAuth` of `src/server.ts`. -/
def requireWriteAuth (writeToken : Option String) (req : Request) : Except HttpErr String :=
  match writeToken with
  | none => .ok "none"
  | some tok =>
    match req.authorization with
    | none => .error (.unauthorized "Missing Authorization header")
    | some header =>
      if header.length = 0 then .error (.unauthorized "Missing Authorization header")
      else
        match bearerToken header with
        | some t => if t = tok then .ok "token" else .error (.unauthorized "Invalid write token")
        | none => .error (.unauthorized "Invalid write token")

def opKindOfString : String → Option OpKind
  | "add" => some .add
  | "remove" => some .remove
  | "replace" => some .replace
  | "move" => some .move
  | "copy" => some .copy
  | "test" => some OpKind.test
  | _ => none

/-- `jsonPatchOperationSchema.safeParse` on a decoded JSON body element. -/
def patchOpFromJson : Json → Option PatchOp
  | .obj fields =>
    match lookupField fields "op", lookupField fields "path" with
    | some (.str opStr), some (.str path) =>
      match opKindOfString opStr with
      | none => none
      | some kind =>
        if path.length = 0 then none
        else
          match lookupField fields "from" with
          | some (.str f) =>
            if f.length = 0 then none
            else checkRefinements { op := kind, path := path, fromPath := some f,
                                    value := lookupField fields "value" }
          | some _ => none
          | none => checkRefinements { op := kind, path := path, fromPath := none,
                                       value := lookupField fields "value" }
    | _, _ => none
  | _ => none
where
  /-- the `superRefine`: `move`/`copy` require `from`; `add`/`replace`/`test`
  require a `value` key. -/
  checkRefinements (op : PatchOp) : Option PatchOp :=
    if patchOpOk op then some op else none

/-- `jsonPatchSchema.safeParse` on a decoded JSON body. -/
def jsonPatchFromJson : Json → Option (List PatchOp)
  | .arr elems => elems.mapM patchOpFromJson
  | _ => none

/-- The `PATCH /v1/memory` route handler of `src/server.ts`: write auth,
content type, `If-Match` presence, body schema; the `X-LMV-Actor` and
`X-LMV-Reason` headers are read with `?? "unknown"` / `?? "unspecified"`
defaults; then `storage.patchMemory`. -/
def handlePatchMemory (writeToken : Option String) (fs : FS) (req : Request) (now : String) :
    FS × Except HttpErr PatchResult :=
  match requireWriteAuth writeToken req with
  | .error err => (fs, .error err)
  | .ok authMode =>
    if parseContentType req.contentType ≠ "application/json-patch+json" then
      (fs, .error (.schemaValidation "Content-Type must be application/json-patch+json"))
    else
      match req.ifMatch with
      | none => (fs, .error (.schemaValidation "If-Match header is required"))
      | some ifMatch =>
        if (strTrim ifMatch).length = 0 then
          (fs, .error (.schemaValidation "If-Match header is required"))
        else
          match jsonPatchFromJson req.body with
          | none => (fs, .error (.schemaValidation "Invalid JSON Patch body"))
          | some ops =>
            patchMemory fs
              { ifMatchHeader := ifMatch
                patch := ops
                actor := (req.actorHeader).getD "unknown"
                reason := (req.reasonHeader).getD "unspecified"
                auth := authMode }
              now

/-- HTTP status of a handler outcome: 200 on success, the error's status
otherwise (`setErrorHandler` in `src/server.ts`). -/
def responseStatus {α : Type} : Except HttpErr α → Nat
  | .ok _ => 200
  | .error e => e.statusCode

/-- Run a sequence of `patchMemory` calls, each with its own input and
timestamp, failing if any call fails. -/
def runPatchSeq : FS → List (PatchInput × String) → Option FS
  | fs, [] => some fs
  | fs, (input, now) :: rest =>
    match patchMemory fs input now with
    | (fs2, .ok _) => runPatchSeq fs2 rest
    | (_, .error _) => none

/-! ## Specification predicates and invariants used by the theorems -/

/-- The two hash-chain equations of the specification, checked along a
list of entries with running previous hash `prev`: each entry's
`prev_hash` equals the preceding entry's `entry_hash` (`prev` before the
first), and each `entry_hash` reproduces under `computeEntryHash`. -/
def chainOkFrom (prev : String) : List LedgerEntryPlain → Bool
  | [] => true
  | e :: es =>
    (e.prev_hash == prev) && (e.entry_hash == computeEntryHash e) && chainOkFrom e.entry_hash es

/-- The hash of the last entry of a list, or `ph` if the list is empty. -/
def lastHash (ph : String) (es : List LedgerEntryPlain) : String :=
  match es.getLast? with
  | some e => e.entry_hash
  | none => ph

/-- Side conditions under which one patch call is "valid" in the sense of
the specification's property list: the timestamp the clock produces is an
ISO datetime (as `new Date().toISOString()` always is), the actor and
reason strings are non-empty (as the server surface guarantees via its
defaults), and `auth` is one of its two legal values (as the server
surface guarantees). -/
def stepOkInput (input : PatchInput) (now : String) : Prop :=
  isIsoDatetime now = true ∧ input.actor.length ≠ 0 ∧ input.reason.length ≠ 0 ∧
  (input.auth = "none" ∨ input.auth = "token")

def stepsOk (steps : List (PatchInput × String)) : Prop :=
  ∀ p ∈ steps, stepOkInput p.1 p.2

/-- The invariant tying an `FS` to the plaintext journal it decodes to,
maintained by every successful `patchMemory` call. -/
structure GoodFS (fs : FS) (es : List LedgerEntryPlain) : Prop where
  lines : fs.ledger = es.map goodLine
  entriesOk : ∀ e ∈ es, ledgerEntryOk e = true
  chain : checkChain "" 0 es = .ok ()
  state : ∃ st, getCurrentState fs = .ok st ∧ st.memory.version = es.length ∧
    st.ledger_cursor = es.length

/-! ## Concrete fixtures for witnesses and counterexamples -/

def sampleT0 : String := "2024-01-01T00:00:00.000Z"
def sampleT1 : String := "2024-01-01T00:00:01.000Z"
def sampleT2 : String := "2024-01-01T00:00:02.000Z"

def sampleFS0 : FS := initialFS sampleT0

def sampleAddOp : PatchOp :=
  { op := .add, path := "/identity/name", fromPath := none, value := some (.str "Alice") }

def sampleAddOp2 : PatchOp :=
  { op := .add, path := "/rules/r1", fromPath := none, value := some (.num 5) }

def sampleInput1 : PatchInput :=
  { ifMatchHeader := "\"v0\"", patch := [sampleAddOp], actor := "agent:demo",
    reason := "lmv/demo/add_identity", auth := "none" }

def sampleInput2 : PatchInput :=
  { ifMatchHeader := "\"v1\"", patch := [sampleAddOp2], actor := "agent:demo",
    reason := "lmv/demo/add_rule", auth := "none" }

/-- An operation targeting the reserved `/version` path. -/
def sampleReservedOp : PatchOp :=
  { op := .add, path := "/version", fromPath := none, value := some (.num 7) }

/-- A patch touching the reserved `/version` path. -/
def sampleReservedInput : PatchInput :=
  { ifMatchHeader := "\"v0\"", patch := [sampleReservedOp],
    actor := "agent:demo", reason := "lmv/demo/reserved", auth := "none" }

/-- A stale-precondition patch request (`If-Match` v7 against version 0). -/
def sampleStaleInput : PatchInput :=
  { ifMatchHeader := "\"v7\"", patch := [sampleAddOp], actor := "agent:demo",
    reason := "lmv/demo/stale", auth := "none" }

/-- A `PATCH /v1/memory` request with valid content type, `If-Match` and
body but **no** `X-LMV-Actor` and **no** `X-LMV-Reason` headers. -/
def sampleReqNoActor : Request :=
  { authorization := none
    contentType := some "application/json-patch+json"
    ifMatch := some "\"v0\""
    actorHeader := none
    reasonHeader := none
    body := .arr [.obj [("op", .str "add"), ("path", .str "/identity/name"),
                        ("value", .str "Alice")]] }

/-- A request missing the `If-Match` header (other required pieces valid). -/
def sampleReqNoIfMatch : Request :=
  { sampleReqNoActor with ifMatch := none }

/-- A schema-valid entry whose hash chain is broken (`prev_hash` is not
empty at cursor 1 and `entry_hash` does not reproduce). -/
def sampleBrokenEntry : LedgerEntryPlain :=
  { cursor := 1, ts := sampleT0, actor := "a", base_version := 0, new_version := 1,
    reason := "r", auth := none, patch := [], prev_hash := "x", entry_hash := "y" }

/-- The vault state after one successful patch on the fresh vault. -/
def sampleFS1 : FS := (patchMemory sampleFS0 sampleInput1 sampleT1).1

/-! ## Supporting lemmas -/

/-- Sanity check against the FIPS 180-4 test vector for "abc". -/
theorem sha256Hex_abc :
    sha256Hex "abc" = "ba7816bf8f01cfea414140de5dae2223b00361a396177a9cb410ff61f20015ad" := by
  rfl

theorem isIsoDatetime_sample : isIsoDatetime "2024-01-01T00:00:00.000Z" = true := by decide

theorem parseIfMatch_sample : parseIfMatch " \"v12\" " = some 12 := by decide

theorem readVault_ok_inv {fs : FS} {s : VaultSnapshotPlain} (h : readVault fs = .ok s) :
    s = fs.vault ∧ vaultSnapshotOk fs.vault = true ∧
    Json.stringify (aadJson (vaultAAD fs.vault)) = Json.stringify fs.vaultAad := by
  unfold readVault at h
  split at h
  · split at h
    · simp_all
    · simp_all
  · simp_all

theorem readVault_mk {fs : FS} (h1 : vaultSnapshotOk fs.vault = true)
    (h2 : Json.stringify (aadJson (vaultAAD fs.vault)) = Json.stringify fs.vaultAad) :
    readVault fs = .ok fs.vault := by
  unfold readVault
  rw [if_pos h1, if_pos h2]

theorem readLedgerEntries_ok_inv {lines : List EncLine} {es : List LedgerEntryPlain}
    (h : readLedgerEntries lines = .ok es) :
    decodeLines lines = .ok es ∧ checkChain "" 0 es = .ok () := by
  unfold readLedgerEntries at h
  split at h
  · simp_all
  · rename_i es2 heq
    split at h
    · simp_all
    · rename_i u heq2
      cases u
      simp_all

theorem readLedgerEntries_mk {lines : List EncLine} {es : List LedgerEntryPlain}
    (h1 : decodeLines lines = .ok es) (h2 : checkChain "" 0 es = .ok ()) :
    readLedgerEntries lines = .ok es := by
  simp [readLedgerEntries, h1, h2]

theorem decodeLine_goodLine {e : LedgerEntryPlain} (h : ledgerEntryOk e = true) :
    decodeLine (goodLine e) = .ok e := by
  simp [decodeLine, goodLine, h]

theorem decodeLines_map_good :
    ∀ es : List LedgerEntryPlain, (∀ e ∈ es, ledgerEntryOk e = true) →
      decodeLines (es.map goodLine) = .ok es
  | [], _ => rfl
  | [e], h => by
      simp [decodeLines, decodeLine_goodLine (h e (by simp))]
  | e :: e2 :: rest, h => by
      have ih := decodeLines_map_good (e2 :: rest) (fun x hx => h x (List.mem_cons_of_mem _ hx))
      simp only [List.map_cons] at ih ⊢
      simp [decodeLines, decodeLine_goodLine (h e (by simp)), ih]

theorem decodeLine_error_corrupt {l : EncLine} {e : HttpErr} (h : decodeLine l = .error e) :
    ∃ msg, e = .storageCorruption msg := by
  unfold decodeLine at h
  split at h
  · simp only [Except.error.injEq] at h
    exact ⟨_, h.symm⟩
  · split at h
    · split at h
      · simp at h
      · simp only [Except.error.injEq] at h
        exact ⟨_, h.symm⟩
    · simp only [Except.error.injEq] at h
      exact ⟨_, h.symm⟩

theorem decodeLines_error_corrupt :
    ∀ (lines : List EncLine) (e : HttpErr), decodeLines lines = .error e →
      ∃ msg, e = .storageCorruption msg
  | [], e, h => by simp [decodeLines] at h
  | [l], e, h => by
    unfold decodeLines at h
    split at h <;> exact Except.noConfusion h
  | l :: l2 :: rest, e, h => by
    unfold decodeLines at h
    split at h
    · split at h
      · simp at h
      · rename_i err heq
        simp only [Except.error.injEq] at h
        exact h ▸ decodeLines_error_corrupt (l2 :: rest) err heq
    · rename_i err heq
      simp only [Except.error.injEq] at h
      exact h ▸ decodeLine_error_corrupt heq

theorem checkChain_to_chainOk :
    ∀ (es : List LedgerEntryPlain) (ph : String) (i : Nat), checkChain ph i es = .ok () →
      chainOkFrom ph es = true
  | [], _, _, _ => rfl
  | e :: es, ph, i, h => by
    unfold checkChain at h
    split at h
    · simp at h
    · split at h
      · simp at h
      · split at h
        · simp at h
        · rename_i h1 h2 h3
          push_neg at h2 h3
          have ih := checkChain_to_chainOk es e.entry_hash (i + 1) h
          simp [chainOkFrom, ih, h2, h3]

theorem checkChain_cases :
    ∀ (es : List LedgerEntryPlain) (ph : String) (i : Nat),
      checkChain ph i es = .ok () ∨ ∃ msg, checkChain ph i es = .error (.storageCorruption msg)
  | [], _, _ => Or.inl rfl
  | e :: es, ph, i => by
    unfold checkChain
    split
    · exact Or.inr ⟨_, rfl⟩
    · split
      · exact Or.inr ⟨_, rfl⟩
      · split
        · exact Or.inr ⟨_, rfl⟩
        · exact checkChain_cases es e.entry_hash (i + 1)

theorem lastHash_cons :
    ∀ (ph : String) (e2 : LedgerEntryPlain) (es : List LedgerEntryPlain),
      lastHash ph (e2 :: es) = lastHash e2.entry_hash es
  | _, _, [] => rfl
  | ph, e2, b :: t => by
    have h1 : lastHash ph (e2 :: b :: t) = lastHash ph (b :: t) := by
      simp only [lastHash, List.getLast?_cons_cons]
    rw [h1, lastHash_cons ph b t, ← lastHash_cons e2.entry_hash b t]

theorem checkChain_snoc :
    ∀ (es : List LedgerEntryPlain) (ph : String) (i : Nat) (e : LedgerEntryPlain),
      checkChain ph i es = .ok () → e.cursor = i + es.length + 1 →
      e.prev_hash = lastHash ph es → computeEntryHash e = e.entry_hash →
      checkChain ph i (es ++ [e]) = .ok ()
  | [], ph, i, e, _, hc, hp, hh => by
    simp only [List.length_nil] at hc
    simp only [lastHash, List.getLast?] at hp
    simp only [List.nil_append]
    unfold checkChain
    rw [if_neg (by omega), if_neg (by simp [hp]), if_neg (by simp [hh])]
    rfl
  | e2 :: es, ph, i, e, h, hc, hp, hh => by
    unfold checkChain at h
    split at h
    · simp at h
    · split at h
      · simp at h
      · split at h
        · simp at h
        · rename_i h1 h2 h3
          have ih := checkChain_snoc es e2.entry_hash (i + 1) e h
            (by simp only [List.length_cons] at hc; omega) (by rw [hp, lastHash_cons]) hh
          simp only [List.cons_append]
          unfold checkChain
          rw [if_neg h1, if_neg h2, if_neg h3]
          exact ih

theorem checkChain_cursor_le :
    ∀ (es : List LedgerEntryPlain) (ph : String) (i : Nat), checkChain ph i es = .ok () →
      ∀ e ∈ es, e.cursor ≤ i + es.length
  | [], _, _, _, e, he => by simp at he
  | e2 :: es, ph, i, h, e, he => by
    unfold checkChain at h
    split at h
    · simp at h
    · split at h
      · simp at h
      · split at h
        · simp at h
        · rename_i h1 h2 h3
          push_neg at h1
          rcases List.mem_cons.mp he with rfl | hmem
          · simp only [List.length_cons, h1]
            omega
          · have := checkChain_cursor_le es e2.entry_hash (i + 1) h e hmem
            simp only [List.length_cons] at this ⊢
            omega

theorem replayEntries_snoc :
    ∀ (es : List LedgerEntryPlain) (m : MemoryState) (sc : Nat) (e : LedgerEntryPlain),
      replayEntries m sc (es ++ [e]) =
        match replayEntries m sc es with
        | .ok m2 => if e.cursor ≤ sc then .ok m2 else applyEntry m2 e
        | .error err => .error err
  | [], m, sc, e => by
    simp only [List.nil_append, replayEntries]
    split
    · rfl
    · cases applyEntry m e <;> rfl
  | e2 :: es, m, sc, e => by
    simp only [List.cons_append]
    unfold replayEntries
    split
    · exact replayEntries_snoc es m sc e
    · cases happly : applyEntry m e2 with
      | ok m2 => exact replayEntries_snoc es m2 sc e
      | error err => rfl

theorem replayEntries_skipAll :
    ∀ (es : List LedgerEntryPlain) (m : MemoryState) (sc : Nat),
      (∀ e ∈ es, e.cursor ≤ sc) → replayEntries m sc es = .ok m
  | [], _, _, _ => rfl
  | e :: es, m, sc, h => by
    unfold replayEntries
    rw [if_pos (h e (by simp))]
    exact replayEntries_skipAll es m sc (fun x hx => h x (by simp [hx]))

theorem applyEntry_ok_inv {m : MemoryState} {e : LedgerEntryPlain} {m2 : MemoryState}
    (h : applyEntry m e = .ok m2) :
    e.base_version = m.version ∧ memoryOk m2 = true ∧ m2.version = e.new_version ∧
    m2.updated_at = e.ts := by
  unfold applyEntry at h
  split at h
  · simp at h
  · rename_i hbase
    push_neg at hbase
    split at h
    · simp at h
    · split at h
      · rename_i hmem
        simp only [Except.ok.injEq] at h
        subst h
        exact ⟨hbase, hmem, rfl, rfl⟩
      · simp at h

theorem replayEntries_ok_memoryOk :
    ∀ (es : List LedgerEntryPlain) (m : MemoryState) (sc : Nat) (m2 : MemoryState),
      replayEntries m sc es = .ok m2 → memoryOk m = true → memoryOk m2 = true
  | [], m, sc, m2, h, hm => by
    simp only [replayEntries, Except.ok.injEq] at h
    exact h ▸ hm
  | e :: es, m, sc, m2, h, hm => by
    unfold replayEntries at h
    split at h
    · exact replayEntries_ok_memoryOk es m sc m2 h hm
    · cases happly : applyEntry m e with
      | ok m3 =>
        rw [happly] at h
        exact replayEntries_ok_memoryOk es m3 sc m2 h (applyEntry_ok_inv happly).2.1
      | error err => rw [happly] at h; simp at h

theorem replayLedger_ok_inv {snap : VaultSnapshotPlain} {entries : List LedgerEntryPlain}
    {st : CurrentState} (h : replayLedger snap entries = .ok st) :
    snap.snapshot_cursor ≤ entries.length ∧
    replayEntries snap.memory snap.snapshot_cursor entries = .ok st.memory ∧
    st.snapshot_cursor = snap.snapshot_cursor ∧ st.ledger_cursor = entries.length := by
  unfold replayLedger at h
  split at h
  · simp at h
  · rename_i hlen
    push_neg at hlen
    split at h
    · rename_i m heq
      simp only [Except.ok.injEq] at h
      subst h
      exact ⟨hlen, heq, rfl, rfl⟩
    · simp at h

theorem replayLedger_mk {snap : VaultSnapshotPlain} {entries : List LedgerEntryPlain}
    {m : MemoryState} (hlen : snap.snapshot_cursor ≤ entries.length)
    (h : replayEntries snap.memory snap.snapshot_cursor entries = .ok m) :
    replayLedger snap entries =
      .ok { memory := m, snapshot_cursor := snap.snapshot_cursor,
            ledger_cursor := entries.length } := by
  unfold replayLedger
  rw [if_neg (by omega)]
  simp [h]

theorem getCurrentState_ok_inv {fs : FS} {st : CurrentState} (h : getCurrentState fs = .ok st) :
    readVault fs = .ok fs.vault ∧
    ∃ entries, readLedgerEntries fs.ledger = .ok entries ∧
      replayLedger fs.vault entries = .ok st := by
  unfold getCurrentState at h
  split at h
  · simp at h
  · rename_i snap hsnap
    have hv := readVault_ok_inv hsnap
    split at h
    · simp at h
    · rename_i entries hent
      exact ⟨hv.1 ▸ hsnap, entries, hent, hv.1 ▸ h⟩

theorem getCurrentState_mk {fs : FS} {snap : VaultSnapshotPlain}
    {entries : List LedgerEntryPlain} {st : CurrentState} (h1 : readVault fs = .ok snap)
    (h2 : readLedgerEntries fs.ledger = .ok entries) (h3 : replayLedger snap entries = .ok st) :
    getCurrentState fs = .ok st := by
  simp [getCurrentState, h1, h2, h3]

theorem patchMemory_ok_inv {fs : FS} {input : PatchInput} {now : String} {fs2 : FS}
    {r : PatchResult} (h : patchMemory fs input now = (fs2, .ok r)) :
    ∃ entries current,
      patchOpsOk input.patch = true ∧
      patchTouchesReserved input.patch = false ∧
      parseIfMatch input.ifMatchHeader = some current.memory.version ∧
      readVault fs = .ok fs.vault ∧
      readLedgerEntries fs.ledger = .ok entries ∧
      replayLedger fs.vault entries = .ok current ∧
      ∃ patchedBlocks,
        applyPatchOps current.memory.blocks input.patch = some patchedBlocks ∧
        blocksOk patchedBlocks = true ∧
        fs2 = appendLedgerEntry fs (buildEntry current entries input now) ∧
        r = { state := { memory := { version := current.memory.version + 1,
                                     blocks := patchedBlocks,
                                     updated_at := now }
                         snapshot_cursor := fs.vault.snapshot_cursor
                         ledger_cursor := entries.length + 1 }
              applied_entry_cursor := entries.length + 1 } := by
  unfold patchMemory at h
  split at h
  · simp at h
  · rename_i hops
    split at h
    · simp at h
    · rename_i hres
      split at h
      · simp at h
      · rename_i bv hparse
        split at h
        · simp at h
        · rename_i snap hrv
          obtain ⟨hsnap, _, _⟩ := readVault_ok_inv hrv
          subst hsnap
          split at h
          · simp at h
          · rename_i entries hrl
            split at h
            · simp at h
            · rename_i current hreplay
              split at h
              · simp at h
              · rename_i hbv
                push_neg at hbv
                split at h
                · simp at h
                · rename_i pb happly
                  split at h
                  · simp at h
                  · rename_i hblocks
                    simp only [Prod.mk.injEq, Except.ok.injEq] at h
                    obtain ⟨hfs2, hrr⟩ := h
                    refine ⟨entries, current, by simpa using hops, by simpa using hres,
                      hbv ▸ hparse, hrv, hrl, hreplay, pb, happly, by simpa using hblocks,
                      hfs2.symm, ?_⟩
                    rw [← hrr]
                    rfl

theorem GoodFS_read {fs : FS} {es : List LedgerEntryPlain} (hg : GoodFS fs es) :
    readLedgerEntries fs.ledger = .ok es := by
  rw [hg.lines]
  exact readLedgerEntries_mk (decodeLines_map_good es hg.entriesOk) hg.chain

theorem goodFS_initial {t0 : String} (h : isIsoDatetime t0 = true) : GoodFS (initialFS t0) [] := by
  refine ⟨rfl, by simp, rfl, ⟨⟨emptyMemory t0, 0, 0⟩, ?_, rfl, rfl⟩⟩
  refine @getCurrentState_mk (initialFS t0) (initialFS t0).vault [] _ ?_ ?_ ?_
  · refine readVault_mk ?_ rfl
    simp [initialFS, vaultSnapshotOk, memoryOk, blocksOk, emptyMemory, UID, SCHEMA_VERSION,
      Json.isObj, h]
    decide
  · exact readLedgerEntries_mk rfl rfl
  · exact replayLedger_mk (by simp [initialFS]) rfl

theorem goodFS_step {fs : FS} {es : List LedgerEntryPlain} {input : PatchInput} {now : String}
    {fs2 : FS} {r : PatchResult} (hg : GoodFS fs es) (hs : stepOkInput input now)
    (h : patchMemory fs input now = (fs2, .ok r)) :
    ∃ e, fs2 = appendLedgerEntry fs e ∧ GoodFS fs2 (es ++ [e]) ∧
      e.cursor = es.length + 1 ∧ e.base_version = es.length ∧ e.new_version = es.length + 1 ∧
      e.ts = now ∧
      r.applied_entry_cursor = es.length + 1 ∧ r.state.memory.version = es.length + 1 ∧
      r.state.ledger_cursor = es.length + 1 := by
  obtain ⟨entries, current, hops, hres, hparse, hrv, hrl, hreplay, pb, happly, hblocks,
    hfs2, hr⟩ := patchMemory_ok_inv h
  have hread_es : readLedgerEntries fs.ledger = .ok es := GoodFS_read hg
  have hEq : entries = es := Except.ok.inj (hrl.symm.trans hread_es)
  rw [hEq] at hrl hreplay hfs2 hr
  obtain ⟨st, hst, hver, hlc⟩ := hg.state
  have hcurEq : current = st :=
    Except.ok.inj ((getCurrentState_mk hrv hrl hreplay).symm.trans hst)
  rw [hcurEq] at hparse hreplay happly hfs2 hr
  obtain ⟨hsc_le, hrep_es, hsc_eq, _⟩ := replayLedger_ok_inv hreplay
  obtain ⟨hnow, hactor, hreason, hauth⟩ := hs
  refine ⟨buildEntry st es input now, hfs2, ?_, ?_, ?_, ?_, ?_, ?_, ?_, ?_⟩
  · -- the invariant for the extended journal
    have hentryOk : ledgerEntryOk (buildEntry st es input now) = true := by
      simp only [ledgerEntryOk, buildEntry, Bool.and_eq_true, bne_iff_ne, ne_eq]
      refine ⟨⟨⟨⟨⟨by omega, hnow⟩, by simpa using hactor⟩, by simpa using hreason⟩, ?_⟩, hops⟩
      rcases hauth with ha | ha <;> simp [authValOk, ha]
    have hchain2 : checkChain "" 0 (es ++ [buildEntry st es input now]) = .ok () :=
      checkChain_snoc es "" 0 _ hg.chain (by simp [buildEntry]) rfl rfl
    have hlines2 : fs2.ledger = (es ++ [buildEntry st es input now]).map goodLine := by
      rw [hfs2]
      simp [appendLedgerEntry, hg.lines]
    have hentriesOk2 : ∀ x ∈ es ++ [buildEntry st es input now], ledgerEntryOk x = true := by
      intro x hx
      rcases List.mem_append.mp hx with hx | hx
      · exact hg.entriesOk x hx
      · simp at hx
        exact hx ▸ hentryOk
    refine ⟨hlines2, hentriesOk2, hchain2, ?_⟩
    refine ⟨⟨⟨st.memory.version + 1, pb, now⟩, fs.vault.snapshot_cursor, es.length + 1⟩, ?_,
      by simp [hver], by simp⟩
    have hvault2 : fs2.vault = fs.vault := by rw [hfs2]; rfl
    have hvaultAad2 : fs2.vaultAad = fs.vaultAad := by rw [hfs2]; rfl
    refine @getCurrentState_mk fs2 fs.vault (es ++ [buildEntry st es input now]) _ ?_ ?_ ?_
    · obtain ⟨_, hok, haad⟩ := readVault_ok_inv hrv
      have hres2 := @readVault_mk fs2 (by rw [hvault2]; exact hok)
        (by rw [hvault2, hvaultAad2]; exact haad)
      rw [hvault2] at hres2
      exact hres2
    · rw [hlines2]
      exact readLedgerEntries_mk (decodeLines_map_good _ hentriesOk2) hchain2
    · have hstep : replayEntries fs.vault.memory fs.vault.snapshot_cursor
          (es ++ [buildEntry st es input now]) =
          .ok ⟨st.memory.version + 1, pb, now⟩ := by
        simp only [replayEntries_snoc, hrep_es]
        rw [if_neg (by simp [buildEntry]; omega)]
        unfold applyEntry
        rw [if_neg (by simp [buildEntry])]
        have hpatch_eq : (buildEntry st es input now).patch = input.patch := rfl
        simp only [hpatch_eq, happly]
        rw [if_pos (by simp [buildEntry, memoryOk, blocksOk, hnow]
                       simpa [blocksOk] using hblocks)]
        rfl
      have hfin := @replayLedger_mk fs.vault (es ++ [buildEntry st es input now]) _
        (by simp; omega) hstep
      simpa using hfin
  · simp [buildEntry]
  · simp [buildEntry, hver]
  · simp [buildEntry, hver]
  · simp [buildEntry]
  · rw [hr]
  · rw [hr]
    simp [hver]
  · rw [hr]

theorem runPatchSeq_good :
    ∀ (steps : List (PatchInput × String)) (fs : FS) (es : List LedgerEntryPlain),
      GoodFS fs es → stepsOk steps → ∀ fs2, runPatchSeq fs steps = some fs2 →
      ∃ es2, GoodFS fs2 es2 ∧ es2.length = es.length + steps.length
  | [], fs, es, hg, _, fs2, h => by
    simp only [runPatchSeq, Option.some.injEq] at h
    exact h ▸ ⟨es, hg, by simp⟩
  | (input, now) :: rest, fs, es, hg, hsteps, fs2, h => by
    unfold runPatchSeq at h
    split at h
    · rename_i fs3 r heq
      obtain ⟨e, _, hg3, _⟩ := goodFS_step hg (hsteps (input, now) (by simp)) heq
      obtain ⟨es2, hg2, hlen⟩ :=
        runPatchSeq_good rest fs3 (es ++ [e]) hg3
          (fun p hp => hsteps p (List.mem_cons_of_mem _ hp)) fs2 h
      refine ⟨es2, hg2, ?_⟩
      simp only [List.length_append, List.length_cons, List.length_nil] at hlen ⊢
      omega
    · exact Option.noConfusion h

theorem getCurrentState_memoryOk {fs : FS} {st : CurrentState}
    (h : getCurrentState fs = .ok st) : memoryOk st.memory = true := by
  obtain ⟨hrv, entries, hrl, hreplay⟩ := getCurrentState_ok_inv h
  obtain ⟨_, hok, _⟩ := readVault_ok_inv hrv
  obtain ⟨_, hrep, _, _⟩ := replayLedger_ok_inv hreplay
  have hmem0 : memoryOk fs.vault.memory = true := by
    simp only [vaultSnapshotOk, Bool.and_eq_true] at hok
    exact hok.1.2
  exact replayEntries_ok_memoryOk entries fs.vault.memory fs.vault.snapshot_cursor st.memory
    hrep hmem0

theorem writeVault_mk {fs : FS} {s : VaultSnapshotPlain} (h : vaultSnapshotOk s = true) :
    writeVault fs s = .ok { fs with vault := s, vaultAad := aadJson (vaultAAD s) } := by
  simp [writeVault, h]

/-! ## Claim theorems -/

/-- Claim C10: implicit failure atomicity of patch admission — whenever
`patchMemory` returns any error (invalid patch schema, reserved path,
malformed `If-Match`, read/replay corruption, version conflict, patch
application failure, or blocks-shape violation), the persisted snapshot
and journal are exactly as before the call: every validation and the
conflict check occur before the single journal append, and nothing is
written on the failure paths. -/
theorem c10_patch_failure_atomicity (fs : FS) (input : PatchInput) (now : String) (e : HttpErr)
    (h : (patchMemory fs input now).2 = .error e) : (patchMemory fs input now).1 = fs := by
  rcases hres : patchMemory fs input now with ⟨fs2, r⟩
  rw [hres] at h
  simp only at h ⊢
  unfold patchMemory at hres
  repeat' split at hres
  all_goals simp only [Prod.mk.injEq] at hres
  all_goals try exact hres.1.symm
  rw [← hres.2] at h
  simp at h

theorem c10_witness :
    (patchMemory sampleFS0 sampleReservedInput sampleT1).1 = sampleFS0 :=
  c10_patch_failure_atomicity sampleFS0 sampleReservedInput sampleT1
    (.patchApply "Patch cannot modify /version or /updated_at") (by rfl)

/-- Claim C7 (counterexample): a schema-valid patch whose only operation
targets the reserved path `/version` makes `patchMemory` fail with a
`PatchApplyError`, whose status code is 422 — not bad-request (400) as
the claim states. -/
theorem c7_counterexample :
    (patchMemory sampleFS0 sampleReservedInput sampleT1).2 =
      .error (.patchApply "Patch cannot modify /version or /updated_at") ∧
    HttpErr.statusCode (.patchApply "Patch cannot modify /version or /updated_at") = 422 ∧
    (422 : Nat) ≠ 400 :=
  ⟨by rfl, by rfl, by decide⟩

/-- Claim C7 (amended): for every patch sequence that is schema-valid and
contains an operation whose path equals `/version` or `/updated_at`,
`patchMemory` fails with patch-apply (422), before acquiring the lock and
reading any state, and without appending a journal entry (the store is
returned unchanged, whatever it is). -/
theorem c7_reserved_path_rejection (fs : FS) (input : PatchInput) (now : String)
    (hops : patchOpsOk input.patch = true)
    (hres : patchTouchesReserved input.patch = true) :
    patchMemory fs input now =
      (fs, .error (.patchApply "Patch cannot modify /version or /updated_at")) ∧
    HttpErr.statusCode (.patchApply "Patch cannot modify /version or /updated_at") = 422 := by
  refine ⟨?_, rfl⟩
  unfold patchMemory
  rw [if_neg (by simp [hops]), if_pos hres]

theorem c7_witness :
    patchMemory sampleFS0 sampleReservedInput sampleT1 =
      (sampleFS0, .error (.patchApply "Patch cannot modify /version or /updated_at")) :=
  (c7_reserved_path_rejection sampleFS0 sampleReservedInput sampleT1 (by decide) (by decide)).1

/-- Claim C8 (counterexample): the filesystem trace of a snapshot
overwrite for a concrete envelope is a single in-place `writeFile` of
`vault.enc`, containing no rename and no fsync — so the overwrite is not
performed by writing a temporary file, fsyncing it and renaming it over
`vault.enc`, as the claim states. -/
theorem c8_counterexample :
    writeVaultFsOps "envelope" = [FsOp.writeFile "vault.enc" "envelope"] ∧
    (writeVaultFsOps "envelope").all (fun op => !op.isRename && !op.isFsync) = true :=
  ⟨rfl, by decide⟩

/-- Claim C8 (amended): every snapshot overwrite (by compaction or
initialization, both of which go through `writeVault`) writes the new
envelope directly in place to `vault.enc` with a single `writeFile` — no
temporary file, no fsync, no rename; the journal append, by contrast,
does fsync before closing. -/
theorem c8_snapshot_write_in_place (envelopeJson line : String) :
    writeVaultFsOps envelopeJson = [FsOp.writeFile "vault.enc" envelopeJson] ∧
    (writeVaultFsOps envelopeJson).all (fun op => !op.isRename && !op.isFsync) = true ∧
    FsOp.fsync ∈ appendLedgerFsOps line :=
  ⟨rfl, rfl, by simp [appendLedgerFsOps]⟩

/-- Claim C6 (counterexample): for the initial vault snapshot's AAD
context, the bytes bound by `encryptEnvelope` and stored in `aad_b64`
differ from the canonical sorted-keys JSON encoding of the context:
`aadToBuffer` uses plain `JSON.stringify`, which emits `uid` before
`schema_version` (construction order), while the canonical form sorts
`schema_version` first. -/
theorem c6_counterexample :
    (encryptEnvelope .null "vault" (vaultAAD sampleFS0.vault) [] []).aad_b64 ≠
      base64Encode (utf8Bytes (canonicalJson (aadJson (vaultAAD sampleFS0.vault)))) := by
  decide

/-- Claim C6 (amended): for every envelope produced by `encryptEnvelope`,
the AAD bytes bound to the AEAD and stored in `aad_b64` are the plain
`JSON.stringify` of the AAD context with its keys in construction order
(`record_type`, `uid`, `schema_version`, then `vault_version` or
`entry_cursor`) — not the canonical sorted form; the verify side compares
against the same insertion-order encoding, so a vault whose recorded AAD
is exactly that encoding reads back successfully. -/
theorem c6_aad_insertion_order_encoding :
    (∀ (payload : Json) (info : String) (ctx : AADContext) (salt iv : List Nat),
      (encryptEnvelope payload info ctx salt iv).aad_b64 =
        base64Encode (aadToBuffer ctx) ∧
      aadToBuffer ctx = utf8Bytes (Json.stringify (aadJson ctx))) ∧
    (∀ fs : FS, vaultSnapshotOk fs.vault = true →
      fs.vaultAad = aadJson (vaultAAD fs.vault) → readVault fs = .ok fs.vault) :=
  ⟨fun _ _ _ _ _ => ⟨rfl, rfl⟩, fun _ h1 h2 => readVault_mk h1 (by rw [h2])⟩

theorem c6_witness :
    readVault sampleFS0 = .ok sampleFS0.vault :=
  c6_aad_insertion_order_encoding.2 sampleFS0 (by decide) rfl

theorem decodeLines_middle_bad :
    ∀ (pre : List EncLine) (x : EncLine) (post : List EncLine) (e : HttpErr),
      decodeLine x = .error e → post ≠ [] →
      ∃ err, decodeLines (pre ++ x :: post) = .error err
  | [], x, post, e, hx, hpost => by
    cases post with
    | nil => exact absurd rfl hpost
    | cons p ps =>
      refine ⟨e, ?_⟩
      simp only [List.nil_append]
      unfold decodeLines
      rw [hx]
  | q :: pre2, x, post, e, hx, hpost => by
    obtain ⟨err, ih⟩ := decodeLines_middle_bad pre2 x post e hx hpost
    cases hrest : pre2 ++ x :: post with
    | nil => simp at hrest
    | cons r rs =>
      rw [hrest] at ih
      simp only [List.cons_append, hrest]
      cases hq : decodeLine q with
      | ok e2 =>
        refine ⟨err, ?_⟩
        unfold decodeLines
        rw [hq, ih]
      | error errq =>
        refine ⟨errq, ?_⟩
        unfold decodeLines
        rw [hq]

theorem decodeLines_snoc_torn :
    ∀ (ls : List EncLine) (l : EncLine) (e : HttpErr),
      (∀ y ∈ ls, ∃ ey, decodeLine y = .ok ey) → decodeLine l = .error e →
      ∃ es, decodeLines ls = .ok es ∧ decodeLines (ls ++ [l]) = .ok es
  | [], l, e, _, hl =>
    ⟨[], rfl, by
      simp only [List.nil_append]
      unfold decodeLines
      rw [hl]⟩
  | y :: ys, l, e, hok, hl => by
    obtain ⟨ey, hy⟩ := hok y (by simp)
    obtain ⟨es, h1, h2⟩ := decodeLines_snoc_torn ys l e
      (fun z hz => hok z (List.mem_cons_of_mem _ hz)) hl
    cases ys with
    | nil =>
      have hes : es = [] := by
        have : Except.ok (ε := HttpErr) [] = .ok es := h1
        simpa using this.symm
      subst hes
      refine ⟨[ey], ?_, ?_⟩
      · unfold decodeLines
        rw [hy]
      · simp only [List.cons_append, List.nil_append] at h2 ⊢
        unfold decodeLines
        rw [hy, h2]
    | cons z zs =>
      refine ⟨ey :: es, ?_, ?_⟩
      · unfold decodeLines
        rw [hy, h1]
      · simp only [List.cons_append] at h2 ⊢
        unfold decodeLines
        rw [hy, h2]

/-- Claim C5: torn-append recovery — when reading the journal, if any
line other than the last fails to decode, reading fails with corruption
(500); if only the very last line fails to decode, it is discarded and
the journal is read exactly as if it ended at the previous successfully
decoded line. -/
theorem c5_torn_append_recovery :
    (∀ (pre : List EncLine) (x : EncLine) (post : List EncLine) (e : HttpErr),
      decodeLine x = .error e → post ≠ [] →
      ∃ msg, readLedgerEntries (pre ++ x :: post) = .error (.storageCorruption msg)) ∧
    (∀ (ls : List EncLine) (l : EncLine) (e : HttpErr),
      (∀ y ∈ ls, ∃ ey, decodeLine y = .ok ey) → decodeLine l = .error e →
      readLedgerEntries (ls ++ [l]) = readLedgerEntries ls) := by
  constructor
  · intro pre x post e hx hpost
    obtain ⟨err, herr⟩ := decodeLines_middle_bad pre x post e hx hpost
    obtain ⟨msg, hmsg⟩ := decodeLines_error_corrupt _ _ herr
    refine ⟨msg, ?_⟩
    unfold readLedgerEntries
    rw [herr, hmsg]
  · intro ls l e hok hl
    obtain ⟨es, h1, h2⟩ := decodeLines_snoc_torn ls l e hok hl
    unfold readLedgerEntries
    rw [h1, h2]

theorem c5_witness :
    (∃ msg, readLedgerEntries [EncLine.bad, EncLine.bad] =
      .error (.storageCorruption msg)) ∧
    readLedgerEntries ([] ++ [EncLine.bad]) = readLedgerEntries [] := by
  constructor
  · exact c5_torn_append_recovery.1 [] .bad [.bad] _ rfl (by simp)
  · exact c5_torn_append_recovery.2 [] .bad _ (by simp) rfl

/-- Claim C3: optimistic-concurrency conflict — for every `patchMemory`
call whose (schema-valid, reserved-path-free) patch reaches the version
check and whose `If-Match` header parses as `"v{n}"` with `n` different
from the current memory version, the operation fails with conflict (409)
carrying the current ETag string both as an `ETag` header and as
`current_etag` in the body, and the store is returned unchanged (no
journal entry is appended). -/
theorem c3_conflict_on_stale_etag (fs : FS) (input : PatchInput) (now : String)
    (st : CurrentState) (n : Nat)
    (hops : patchOpsOk input.patch = true)
    (hres : patchTouchesReserved input.patch = false)
    (hst : getCurrentState fs = .ok st)
    (hparse : parseIfMatch input.ifMatchHeader = some n)
    (hne : n ≠ st.memory.version) :
    patchMemory fs input now =
      (fs, .error (.conflict "Version conflict" (etagForVersion st.memory.version))) ∧
    HttpErr.statusCode (.conflict "Version conflict" (etagForVersion st.memory.version)) =
      409 ∧
    HttpErr.headers (.conflict "Version conflict" (etagForVersion st.memory.version)) =
      [("ETag", etagForVersion st.memory.version)] ∧
    HttpErr.details (.conflict "Version conflict" (etagForVersion st.memory.version)) =
      .obj [("current_etag", .str (etagForVersion st.memory.version))] := by
  obtain ⟨hrv, entries, hrl, hreplay⟩ := getCurrentState_ok_inv hst
  refine ⟨?_, rfl, rfl, rfl⟩
  simp only [patchMemory, hops, hres, hparse, hrv, hrl, hreplay, Bool.not_true]
  rw [if_pos hne]
  simp

theorem c3_witness :
    patchMemory sampleFS0 sampleStaleInput sampleT1 =
      (sampleFS0, .error (.conflict "Version conflict" "\"v0\"")) := by
  have h := c3_conflict_on_stale_etag sampleFS0 sampleStaleInput sampleT1 _ 7 (by decide)
    (by decide) rfl (by decide) (by decide)
  exact h.1

/-- Claim C2: patch postcondition — for every successful `patchMemory`
call on a store whose current state has version `v` and whose journal
decodes to `L` entries, the appended entry has `cursor = L + 1`,
`base_version = v`, `new_version = v + 1`, and the returned state has
`memory.version = v + 1` and `applied_entry_cursor = L + 1`; hence after
any sequence of `k` valid patches from a fresh vault, the persisted
memory version equals `k` and the journal length equals `k`. -/
theorem c2_patch_postcondition :
    (∀ (fs : FS) (es : List LedgerEntryPlain) (input : PatchInput) (now : String)
      (fs2 : FS) (r : PatchResult) (st : CurrentState),
      readLedgerEntries fs.ledger = .ok es → getCurrentState fs = .ok st →
      patchMemory fs input now = (fs2, .ok r) →
      ∃ e, fs2 = appendLedgerEntry fs e ∧ e.cursor = es.length + 1 ∧
        e.base_version = st.memory.version ∧ e.new_version = st.memory.version + 1 ∧
        e.ts = now ∧ r.state.memory.version = st.memory.version + 1 ∧
        r.applied_entry_cursor = es.length + 1 ∧ r.state.ledger_cursor = es.length + 1) ∧
    (∀ (t0 : String) (steps : List (PatchInput × String)) (fs2 : FS),
      isIsoDatetime t0 = true → stepsOk steps →
      runPatchSeq (initialFS t0) steps = some fs2 →
      ∃ st2 es2, getCurrentState fs2 = .ok st2 ∧ readLedgerEntries fs2.ledger = .ok es2 ∧
        st2.memory.version = steps.length ∧ es2.length = steps.length ∧
        fs2.ledger.length = steps.length) := by
  constructor
  · intro fs es input now fs2 r st hrl_es hst h
    obtain ⟨entries, current, _, _, _, _, hrl, hreplay, pb, _, _, hfs2, hr⟩ :=
      patchMemory_ok_inv h
    have hEq : entries = es := Except.ok.inj (hrl.symm.trans hrl_es)
    rw [hEq] at hrl hreplay hfs2 hr
    have hcurEq : current = st :=
      Except.ok.inj ((getCurrentState_mk (getCurrentState_ok_inv hst).1 hrl hreplay).symm.trans
        hst)
    rw [hcurEq] at hfs2 hr
    exact ⟨buildEntry st es input now, hfs2, by simp [buildEntry], by simp [buildEntry],
      by simp [buildEntry], by simp [buildEntry], by rw [hr], by rw [hr], by rw [hr]⟩
  · intro t0 steps fs2 h0 hsteps hrun
    obtain ⟨es2, hg, hlen⟩ :=
      runPatchSeq_good steps (initialFS t0) [] (goodFS_initial h0) hsteps fs2 hrun
    obtain ⟨st2, hst2, hver2, _⟩ := hg.state
    refine ⟨st2, es2, hst2, GoodFS_read hg, ?_, ?_, ?_⟩
    · rw [hver2, hlen]
      simp
    · rw [hlen]
      simp
    · rw [hg.lines]
      simp only [List.length_map]
      rw [hlen]
      simp

theorem c2_witness :
    (∃ e, (patchMemory sampleFS0 sampleInput1 sampleT1).1 = appendLedgerEntry sampleFS0 e ∧
      e.cursor = 1 ∧ e.base_version = 0 ∧ e.new_version = 1) ∧
    (∃ st2 es2, getCurrentState sampleFS1 = .ok st2 ∧
      readLedgerEntries sampleFS1.ledger = .ok es2 ∧
      st2.memory.version = 1 ∧ es2.length = 1 ∧ sampleFS1.ledger.length = 1) := by
  constructor
  · obtain ⟨e, h1, h2, h3, h4, _⟩ :=
      c2_patch_postcondition.1 sampleFS0 [] sampleInput1 sampleT1 _ _ _ rfl rfl rfl
    exact ⟨e, h1, h2, h3, h4⟩
  · exact c2_patch_postcondition.2 sampleT0 [(sampleInput1, sampleT1)] sampleFS1
      (by decide) (by
        intro p hp
        simp only [List.mem_singleton] at hp
        subst hp
        exact ⟨by decide, by decide, by decide, Or.inl rfl⟩) rfl

/-- Claim C1: hash-chain integrity — (a) every journal produced by a
sequence of successful valid `patchMemory` calls from a fresh vault reads
back as a list of entries in which each `prev_hash` equals the preceding
entry's `entry_hash` (empty string for cursor 1) and each `entry_hash`
equals the SHA-256 hex of the canonical JSON of the entry with
`entry_hash` omitted (`chainOkFrom ""`); (b) `readLedgerEntries` only
ever returns entry lists satisfying those equations; and (c) on any
journal of decodable entries violating either equation it fails with
corruption. -/
theorem c1_hash_chain_integrity :
    (∀ (t0 : String) (steps : List (PatchInput × String)) (fs2 : FS),
      isIsoDatetime t0 = true → stepsOk steps →
      runPatchSeq (initialFS t0) steps = some fs2 →
      ∃ es, readLedgerEntries fs2.ledger = .ok es ∧ chainOkFrom "" es = true) ∧
    (∀ (lines : List EncLine) (es : List LedgerEntryPlain),
      readLedgerEntries lines = .ok es → chainOkFrom "" es = true) ∧
    (∀ es : List LedgerEntryPlain, (∀ e ∈ es, ledgerEntryOk e = true) →
      chainOkFrom "" es = false →
      ∃ msg, readLedgerEntries (es.map goodLine) = .error (.storageCorruption msg)) := by
  refine ⟨?_, ?_, ?_⟩
  · intro t0 steps fs2 h0 hsteps hrun
    obtain ⟨es2, hg, _⟩ :=
      runPatchSeq_good steps (initialFS t0) [] (goodFS_initial h0) hsteps fs2 hrun
    exact ⟨es2, GoodFS_read hg, checkChain_to_chainOk es2 "" 0 hg.chain⟩
  · intro lines es h
    exact checkChain_to_chainOk es "" 0 (readLedgerEntries_ok_inv h).2
  · intro es hok hbad
    rcases checkChain_cases es "" 0 with hcc | ⟨msg, hcc⟩
    · rw [checkChain_to_chainOk es "" 0 hcc] at hbad
      exact absurd hbad (by simp)
    · refine ⟨msg, ?_⟩
      simp only [readLedgerEntries, decodeLines_map_good es hok, hcc]

theorem c1_witness :
    (∃ es, readLedgerEntries sampleFS1.ledger = .ok es ∧ chainOkFrom "" es = true) ∧
    (∃ msg, readLedgerEntries ([sampleBrokenEntry].map goodLine) =
      .error (.storageCorruption msg)) := by
  constructor
  · exact c1_hash_chain_integrity.1 sampleT0 [(sampleInput1, sampleT1)] sampleFS1
      (by decide) (by
        intro p hp
        simp only [List.mem_singleton] at hp
        subst hp
        exact ⟨by decide, by decide, by decide, Or.inl rfl⟩) rfl
  · exact c1_hash_chain_integrity.2.2 [sampleBrokenEntry] (by decide) (by decide)

/-- Claim C4: compaction equivalence — for every well-formed vault state
(one whose current state assembles successfully) and valid clock reading,
`snapshot()` succeeds and leaves the observable result of
`getCurrentState` unchanged (same memory, same ledger cursor); when the
ledger cursor does not exceed the stored snapshot cursor it is a no-op on
the stored files, and otherwise the new snapshot records a snapshot
cursor equal to the journal length and the fully replayed memory. -/
theorem c4_compaction_equivalence (fs : FS) (now : String) (st : CurrentState)
    (hst : getCurrentState fs = .ok st) (hnow : isIsoDatetime now = true) :
    ∃ fs2 res, snapshotOp fs now = (fs2, .ok res) ∧
      (∃ st2, getCurrentState fs2 = .ok st2 ∧ st2.memory = st.memory ∧
        st2.ledger_cursor = st.ledger_cursor) ∧
      (st.ledger_cursor ≤ fs.vault.snapshot_cursor → fs2 = fs) ∧
      (fs.vault.snapshot_cursor < st.ledger_cursor →
        fs2.vault.snapshot_cursor = st.ledger_cursor ∧ fs2.vault.memory = st.memory) ∧
      res.ledger_cursor = st.ledger_cursor ∧ res.memory_version = st.memory.version ∧
      res.snapshot_cursor = fs2.vault.snapshot_cursor := by
  obtain ⟨hrv, entries, hrl, hreplay⟩ := getCurrentState_ok_inv hst
  obtain ⟨hsc_le, hrep, hsc_eq, hlc_eq⟩ := replayLedger_ok_inv hreplay
  by_cases hle : st.ledger_cursor ≤ fs.vault.snapshot_cursor
  · refine ⟨fs, ⟨fs.vault.snapshot_cursor, st.ledger_cursor, st.memory.version⟩, ?_,
      ⟨st, hst, rfl, rfl⟩, fun _ => rfl, fun hlt => absurd hle (by omega), rfl, rfl, rfl⟩
    simp only [snapshotOp, hrv, hrl, hreplay]
    rw [if_pos hle]
  · push_neg at hle
    have hmem : memoryOk st.memory = true := getCurrentState_memoryOk hst
    have hnextOk : vaultSnapshotOk ⟨UID, SCHEMA_VERSION, st.memory, st.ledger_cursor, now⟩ =
        true := by
      simp [vaultSnapshotOk, UID, SCHEMA_VERSION, hmem, hnow]
      decide
    have hwv := @writeVault_mk fs _ hnextOk
    refine ⟨⟨⟨UID, SCHEMA_VERSION, st.memory, st.ledger_cursor, now⟩,
      aadJson (vaultAAD ⟨UID, SCHEMA_VERSION, st.memory, st.ledger_cursor, now⟩), fs.ledger⟩,
      ⟨st.ledger_cursor, st.ledger_cursor, st.memory.version⟩, ?_, ?_,
      fun hcontra => absurd hcontra (by omega), fun _ => ⟨rfl, rfl⟩, rfl, rfl, rfl⟩
    · simp only [snapshotOp, hrv, hrl, hreplay]
      rw [if_neg (by omega), hwv]
    · have hcur_le : ∀ e ∈ entries, e.cursor ≤ entries.length := fun e he => by
        have := checkChain_cursor_le entries "" 0 (readLedgerEntries_ok_inv hrl).2 e he
        omega
      refine ⟨⟨st.memory, st.ledger_cursor, st.ledger_cursor⟩, ?_, rfl, rfl⟩
      refine @getCurrentState_mk _ _ entries _ (readVault_mk hnextOk rfl) hrl ?_
      have hskip : replayEntries st.memory st.ledger_cursor entries = .ok st.memory :=
        replayEntries_skipAll entries st.memory st.ledger_cursor
          (fun e he => by have := hcur_le e he; omega)
      have hfin := @replayLedger_mk ⟨UID, SCHEMA_VERSION, st.memory, st.ledger_cursor, now⟩
        entries _ (by simp; omega) (by simpa using hskip)
      simpa [hlc_eq] using hfin

theorem c4_witness :
    ∃ fs2 res, snapshotOp sampleFS1 sampleT2 = (fs2, .ok res) ∧
      (∃ st2, getCurrentState fs2 = .ok st2) := by
  obtain ⟨fs2, res, hrun, ⟨st2, hst2, _⟩, _⟩ :=
    c4_compaction_equivalence sampleFS1 sampleT2 _ rfl (by decide)
  exact ⟨fs2, res, hrun, st2, hst2⟩

/-- Claim C9 (counterexample): a `PATCH /v1/memory` request with valid
authorization, content type, `If-Match` and body but **no** `X-LMV-Actor`
and **no** `X-LMV-Reason` headers is accepted (status 200) and the patch
is applied — the request does not fail with a bad-request taxonomy error
as the claim states. -/
theorem c9_counterexample :
    (handlePatchMemory none sampleFS0 sampleReqNoActor sampleT1).2.isOk = true ∧
    responseStatus (handlePatchMemory none sampleFS0 sampleReqNoActor sampleT1).2 = 200 ∧
    (handlePatchMemory none sampleFS0 sampleReqNoActor sampleT1).1.ledger.length = 1 := by
  refine ⟨rfl, rfl, rfl⟩

/-- Claim C9 (amended): of the three headers the claim lists, only
`If-Match` is actually required: a request without it (once authorization
and content type pass) fails with bad-request (400) before any patch is
applied and with the store unchanged, while requests missing
`X-LMV-Actor` or `X-LMV-Reason` are not rejected — the handler
substitutes `"unknown"` / `"unspecified"` and proceeds to
`patchMemory`. -/
theorem c9_required_headers (writeToken : Option String) (fs : FS) (req : Request)
    (now : String) :
    ((requireWriteAuth writeToken req).isOk = true →
      parseContentType req.contentType = "application/json-patch+json" →
      req.ifMatch = none →
      handlePatchMemory writeToken fs req now =
        (fs, .error (.schemaValidation "If-Match header is required"))) ∧
    (∀ (authMode ifMatch : String) (ops : List PatchOp),
      requireWriteAuth writeToken req = .ok authMode →
      parseContentType req.contentType = "application/json-patch+json" →
      req.ifMatch = some ifMatch → (strTrim ifMatch).length ≠ 0 →
      jsonPatchFromJson req.body = some ops →
      handlePatchMemory writeToken fs req now =
        patchMemory fs ⟨ifMatch, ops, req.actorHeader.getD "unknown",
          req.reasonHeader.getD "unspecified", authMode⟩ now) := by
  constructor
  · intro hauth hct him
    obtain ⟨a, ha⟩ : ∃ a, requireWriteAuth writeToken req = .ok a := by
      cases hq : requireWriteAuth writeToken req with
      | ok a => exact ⟨a, rfl⟩
      | error e =>
        rw [hq] at hauth
        simp [Except.isOk, Except.toBool] at hauth
    simp only [handlePatchMemory, ha, hct, him]
    rw [if_neg (by simp)]
  · intro authMode ifMatch ops ha hct him htrim hops
    simp only [handlePatchMemory, ha, hct, him, hops]
    rw [if_neg (by simp), if_neg htrim]

theorem c9_witness :
    handlePatchMemory none sampleFS0 sampleReqNoActor sampleT1 =
      patchMemory sampleFS0 ⟨"\"v0\"",
        [⟨.add, "/identity/name", none, some (.str "Alice")⟩], "unknown", "unspecified",
        "none"⟩ sampleT1 :=
  (c9_required_headers none sampleFS0 sampleReqNoActor sampleT1).2 "none" "\"v0\"" _
    rfl rfl rfl (by decide) rfl

theorem c8_witness :
    writeVaultFsOps "env" = [FsOp.writeFile "vault.enc" "env"] ∧
    FsOp.fsync ∈ appendLedgerFsOps "line" :=
  ⟨(c8_snapshot_write_in_place "env" "line").1, (c8_snapshot_write_in_place "env" "line").2.2⟩
